import Mathlib

/-!
Verification development for the libosmium multipolygon area assembler
(`include/osmium/area/assembler.hpp`) and the diff handler
(`include/osmium/diff_handler.hpp`).

The assembler code itself is translated faithfully from the source.  The
supporting types it uses (`ProtoRing`, `SegmentList`, `NodeRefSegment`,
`Location`, the tag `KeyFilter`) live in headers that are not part of the
source under inspection; every definition standing in for one of those is
marked `Modelled from the spec:` and follows the specification text.
-/

set_option maxRecDepth 4000

namespace Osmium

/-- Modelled from the spec: a Location is a 2-D integer coordinate
(fixed-point lon/lat), equality-comparable by exact value (§3). -/
structure Location where
  x : Int
  y : Int
deriving DecidableEq, Repr, Inhabited

/-- Modelled from the spec: a NodeRef is a pair (node_id, location);
co-location is equality of locations (§3). -/
structure NodeRef where
  ref : Int
  location : Location
deriving DecidableEq, Repr, Inhabited

/-- A tag is a (key, value) pair of strings. -/
abbrev Tag := String × String

/-- An OSM way: id, metadata, ordered node refs and tags.  This stands in
for `osmium::Way` which is outside the inspected source; fields follow the
spec's object model (§3, §6). -/
structure Way where
  id : Int
  version : Int
  changeset : Int
  timestamp : Int
  visible : Bool
  uid : Int
  user : String
  nodes : List NodeRef
  tags : List Tag
deriving DecidableEq, Repr, Inhabited

/-- Modelled from the spec: a way is closed when its first and last node
ids agree (§4.1 uses the same ends-have-same-id test). -/
def Way.ends_have_same_id (w : Way) : Prop :=
  w.nodes.headI.ref = w.nodes.getLastI.ref

instance (w : Way) : Decidable w.ends_have_same_id := by
  unfold Way.ends_have_same_id; infer_instance

/-- Modelled from the spec: `Way::is_closed` used by the inner-way rescue
step; a closed way has equal first and last node ids. -/
def Way.is_closed (w : Way) : Prop := w.ends_have_same_id

instance (w : Way) : Decidable w.is_closed := by
  unfold Way.is_closed; infer_instance

/-- A relation member: a role string and the member way (the C++ code
receives the way through a buffer offset; the pairing is by index). -/
structure Member where
  role : String
  way : Way
deriving DecidableEq, Repr, Inhabited

/-- An OSM relation with its member ways already resolved. -/
structure Relation where
  id : Int
  version : Int
  changeset : Int
  timestamp : Int
  visible : Bool
  uid : Int
  user : String
  tags : List Tag
  members : List Member
deriving DecidableEq, Repr, Inhabited

/-- Segment role, taken from the member role string (§3). -/
inductive Role where
  | outer
  | inner
  | unknown
deriving DecidableEq, Repr, Inhabited

/-- Modelled from the spec: a NodeRefSegment is an ordered pair of
NodeRefs with origin way and role metadata (§3). -/
structure NodeRefSegment where
  first : NodeRef
  second : NodeRef
  way : Way
  role : Role
deriving DecidableEq, Repr, Inhabited

namespace NodeRefSegment

/-- Modelled from the spec: `swap_locations` exchanges the two endpoints
(canonical segment orientation machinery, §3). -/
def swap_locations (s : NodeRefSegment) : NodeRefSegment :=
  { s with first := s.second, second := s.first }

/-- Modelled from the spec: two segments are equal iff both endpoints
share locations; ids, ways and roles are irrelevant (§3). -/
def eqLoc (s t : NodeRefSegment) : Prop :=
  s.first.location = t.first.location ∧ s.second.location = t.second.location

instance (s t : NodeRefSegment) : Decidable (eqLoc s t) := by
  unfold eqLoc; infer_instance

/-- Modelled from the spec: segment role test `role_outer()`. -/
def role_outer (s : NodeRefSegment) : Prop := s.role = Role.outer

instance (s : NodeRefSegment) : Decidable s.role_outer := by
  unfold role_outer; infer_instance

/-- Modelled from the spec: segment role test `role_inner()`. -/
def role_inner (s : NodeRefSegment) : Prop := s.role = Role.inner

instance (s : NodeRefSegment) : Decidable s.role_inner := by
  unfold role_inner; infer_instance

end NodeRefSegment

/-- Modelled from the spec: strict lexicographic order on locations by
(x, then y), used for canonical segment orientation (§3). -/
def Location.lexLt (p q : Location) : Prop :=
  p.x < q.x ∨ (p.x = q.x ∧ p.y < q.y)

instance (p q : Location) : Decidable (p.lexLt q) := by
  unfold Location.lexLt; infer_instance

/-- Modelled from the spec: the segment-list sort order is lexicographic
on (first.x, first.y, second.x, second.y) (§4.2). -/
def segLe (s t : NodeRefSegment) : Prop :=
  s.first.location.x < t.first.location.x ∨
    (s.first.location.x = t.first.location.x ∧
      (s.first.location.y < t.first.location.y ∨
        (s.first.location.y = t.first.location.y ∧
          (s.second.location.x < t.second.location.x ∨
            (s.second.location.x = t.second.location.x ∧
              s.second.location.y ≤ t.second.location.y)))))

instance : DecidableRel segLe := fun s t => by
  unfold segLe; infer_instance

/-- Modelled from the spec: the x-range early exit of the intersection
scan: a later segment starting right of this segment's second endpoint
cannot intersect it (§4.2). -/
def outside_x_range (s2 s1 : NodeRefSegment) : Prop :=
  s2.first.location.x > s1.second.location.x

instance (s2 s1 : NodeRefSegment) : Decidable (outside_x_range s2 s1) := by
  unfold outside_x_range; infer_instance

/-- Modelled from the spec: y-range overlap test of the intersection
scan (§4.2). -/
def y_range_overlap (s1 s2 : NodeRefSegment) : Prop :=
  let lo1 := min s1.first.location.y s1.second.location.y
  let hi1 := max s1.first.location.y s1.second.location.y
  let lo2 := min s2.first.location.y s2.second.location.y
  let hi2 := max s2.first.location.y s2.second.location.y
  lo1 ≤ hi2 ∧ lo2 ≤ hi1

instance (s1 s2 : NodeRefSegment) : Decidable (y_range_overlap s1 s2) := by
  unfold y_range_overlap; infer_instance

/-- Modelled from the spec: exact segment-segment intersection in a
widened integer domain; endpoints that merely touch (shared vertex) do
not count, and collinear configurations yield no intersection point
(§4.2 and the design note in §9). -/
def calculate_intersection (s1 s2 : NodeRefSegment) : Option Location :=
  let a := s1.first.location
  let b := s1.second.location
  let c := s2.first.location
  let d := s2.second.location
  if a = c ∨ a = d ∨ b = c ∨ b = d then none
  else
    let d1x := b.x - a.x
    let d1y := b.y - a.y
    let d2x := d.x - c.x
    let d2y := d.y - c.y
    let den := d1x * d2y - d1y * d2x
    if den = 0 then none
    else
      let acx := c.x - a.x
      let acy := c.y - a.y
      let tN := acx * d2y - acy * d2x
      let uN := acx * d1y - acy * d1x
      if ((0 ≤ tN ∧ tN ≤ den) ∨ (den ≤ tN ∧ tN ≤ 0)) ∧
         ((0 ≤ uN ∧ uN ≤ den) ∨ (den ≤ uN ∧ uN ≤ 0)) then
        some ⟨a.x + tN * d1x / den, a.y + tN * d1y / den⟩
      else none

/-- Modelled from the spec: the ray-cast primitive of the classifier; a
segment not incident to the probe point counts when it strictly passes
to the left of the probe at the probe's y, treating the segment as
crossing the leftward horizontal ray half-open in y (§4.4). -/
def to_left_of (s : NodeRefSegment) (l : Location) : Prop :=
  s.first.location ≠ l ∧ s.second.location ≠ l ∧
    (let a := if s.first.location.y ≤ s.second.location.y then s.first.location else s.second.location
     let b := if s.first.location.y ≤ s.second.location.y then s.second.location else s.first.location
     a.y ≤ l.y ∧ l.y < b.y ∧ (a.x - l.x) * (b.y - a.y) + (l.y - a.y) * (b.x - a.x) < 0)

instance (s : NodeRefSegment) (l : Location) : Decidable (to_left_of s l) := by
  unfold to_left_of; infer_instance

/-- Modelled from the spec: a ProtoRing is a mutable ordered sequence of
segments forming a contiguous path, with an outer/inner flag assigned by
classification (§3).  New rings start flagged outer. -/
structure ProtoRing where
  segments : List NodeRefSegment
  outerFlag : Bool := true
deriving DecidableEq, Repr, Inhabited

namespace ProtoRing

/-- First segment of the ring (`first_segment()`). -/
def first_segment (r : ProtoRing) : NodeRefSegment := r.segments.headI

/-- Last segment of the ring (`last_segment()`). -/
def last_segment (r : ProtoRing) : NodeRefSegment := r.segments.getLastI

/-- Modelled from the spec: `closed()` iff the first endpoint of the
first segment is co-located with the second endpoint of the last
segment (§3). -/
def closed (r : ProtoRing) : Prop :=
  r.first_segment.first.location = r.last_segment.second.location

instance (r : ProtoRing) : Decidable r.closed := by
  unfold closed; infer_instance

/-- `outer()`: classification flag. -/
def outer (r : ProtoRing) : Prop := r.outerFlag = true

instance (r : ProtoRing) : Decidable r.outer := by
  unfold outer; infer_instance

/-- `set_inner()`. -/
def set_inner (r : ProtoRing) : ProtoRing := { r with outerFlag := false }

/-- Cross-product term one segment contributes to the shoelace sum. -/
def segCross (s : NodeRefSegment) : Int :=
  s.first.location.x * s.second.location.y - s.second.location.x * s.first.location.y

/-- Modelled from the spec: twice the signed area of the closed polygon
(shoelace over the segment chain); winding is derived from its sign,
positive = counter-clockwise (§3, glossary). -/
def sum (r : ProtoRing) : Int :=
  r.segments.foldl (fun acc s => acc + segCross s) 0

/-- Modelled from the spec: `is_cw()` — clockwise means negative signed
area (§3, glossary). -/
def is_cw (r : ProtoRing) : Prop := r.sum < 0

instance (r : ProtoRing) : Decidable r.is_cw := by
  unfold is_cw; infer_instance

/-- Modelled from the spec: ring area used to sort outer rings,
the magnitude of the signed area (§4.4). -/
def area (r : ProtoRing) : Nat := r.sum.natAbs

/-- Modelled from the spec: `reverse()` flips every segment and reverses
their order, reversing the traversal direction of the ring. -/
def reverse (r : ProtoRing) : ProtoRing :=
  { r with segments := (r.segments.map NodeRefSegment.swap_locations).reverse }

/-- Modelled from the spec: `min_node()` — the endpoint with the
smallest (x, then y) location across all segments (§3). -/
def min_node (r : ProtoRing) : NodeRef :=
  r.segments.foldl
    (fun best s =>
      let b1 := if s.first.location.lexLt best.location then s.first else best
      if s.second.location.lexLt b1.location then s.second else b1)
    r.first_segment.first

/-- Modelled from the spec: `contains(segment)` — membership by segment
equality, i.e. by endpoint locations. -/
def containsSeg (r : ProtoRing) (s : NodeRefSegment) : Prop :=
  ∃ t ∈ r.segments, t.eqLoc s

instance (r : ProtoRing) (s : NodeRefSegment) : Decidable (r.containsSeg s) := by
  unfold containsSeg; infer_instance

/-- Modelled from the spec: `merge_ring(other)` splices the other ring's
segments onto the end of this ring (§4.3 step 4). -/
def merge_ring (r other : ProtoRing) : ProtoRing :=
  { r with segments := r.segments ++ other.segments }

/-- Modelled from the spec: `merge_ring_reverse(other)` splices the
other ring's segments, reversed, onto the end of this ring so the
orientations align (§4.3 step 4). -/
def merge_ring_reverse (r other : ProtoRing) : ProtoRing :=
  { r with segments := r.segments ++ (other.segments.map NodeRefSegment.swap_locations).reverse }

/-- `add_segment_end(segment)`. -/
def add_segment_end (r : ProtoRing) (s : NodeRefSegment) : ProtoRing :=
  { r with segments := r.segments ++ [s] }

/-- `add_segment_start(segment)`. -/
def add_segment_start (r : ProtoRing) (s : NodeRefSegment) : ProtoRing :=
  { r with segments := s :: r.segments }

/-- Modelled from the spec: `get_ways` collects the origin ways of the
ring's segments (§4.5). -/
def get_ways (r : ProtoRing) : List Way :=
  r.segments.map NodeRefSegment.way

/-- Modelled from the spec: `is_in(outer)` — point-in-polygon test of
one vertex of this ring against the outer ring's boundary, by leftward
ray-cast parity (§4.4). -/
def is_in (inner outerR : ProtoRing) : Prop :=
  (outerR.segments.countP (fun s => decide (to_left_of s inner.min_node.location))) % 2 = 1

instance (inner outerR : ProtoRing) : Decidable (inner.is_in outerR) := by
  unfold is_in; infer_instance

end ProtoRing

/-- Modelled from the spec: map a member role string to a segment role
("outer", "inner", anything else unknown) (§4.1). -/
def roleOf (s : String) : Role :=
  if s = "inner" then Role.inner
  else if s = "outer" then Role.outer
  else Role.unknown

/-- Modelled from the spec: extract directed node-ref segments from a
way: one canonically oriented segment per consecutive node pair, pairs
with identical node ids skipped (§4.1, §3). -/
def extract_segments_from_way (w : Way) (role : Role) : List NodeRefSegment :=
  (w.nodes.zip w.nodes.tail).filterMap
    (fun p =>
      if p.1.ref = p.2.ref then none
      else if p.2.location.lexLt p.1.location then
        some ⟨p.2, p.1, w, role⟩
      else
        some ⟨p.1, p.2, w, role⟩)

/-- Modelled from the spec: extract the segments of all member ways of a
relation, with each member's role string (§4.1). -/
def extract_segments_from_ways (rel : Relation) : List NodeRefSegment :=
  rel.members.foldl
    (fun acc m => acc ++ extract_segments_from_way m.way (roleOf m.role)) []

/-- Modelled from the spec: remove adjacent equal segments pairwise from
the sorted list; two ways sharing a boundary segment cancel (§4.2). -/
def erase_duplicate_segments : List NodeRefSegment → List NodeRefSegment
  | [] => []
  | [s] => [s]
  | s1 :: s2 :: tl =>
    if s1.eqLoc s2 then erase_duplicate_segments tl
    else s1 :: erase_duplicate_segments (s2 :: tl)

/-- Sorting and dedup preparation of the segment list (`sort()` then
`erase_duplicate_segments()` at the top of `stage2`). -/
def prepare_segments (segs : List NodeRefSegment) : List NodeRefSegment :=
  erase_duplicate_segments (List.insertionSort segLe segs)

/-- Streaming problem reports (§6, problem reporter interface). -/
inductive Report where
  | duplicateNode (idA idB : Int) (loc : Location)
  | intersectionAt (objId : Int) (way1 : Int) (s1a s1b : Location)
      (way2 : Int) (s2a s2b : Location) (pt : Location)
  | ringNotClosed (objId : Int) (startLoc endLoc : Location)
  | roleShouldBeOuter (objId wayId : Int) (p1 p2 : Location)
  | roleShouldBeInner (objId wayId : Int) (p1 p2 : Location)
deriving DecidableEq, Repr

/-- Inner loop of `find_intersections`: scan the segments after `s1`,
breaking at the x-range exit, skipping equal segments, and reporting
every computed intersection. -/
def find_intersections_inner (objId : Int) (s1 : NodeRefSegment) :
    List NodeRefSegment → List Report
  | [] => []
  | s2 :: tl =>
    if s1.eqLoc s2 then find_intersections_inner objId s1 tl
    else if outside_x_range s2 s1 then []
    else if y_range_overlap s1 s2 then
      match calculate_intersection s1 s2 with
      | some pt =>
        Report.intersectionAt objId s1.way.id s1.first.location s1.second.location
            s2.way.id s2.first.location s2.second.location pt ::
          find_intersections_inner objId s1 tl
      | none => find_intersections_inner objId s1 tl
    else find_intersections_inner objId s1 tl

/-- Outer loop of `find_intersections`: every segment against all later
segments. -/
def find_intersections_outer (objId : Int) : List NodeRefSegment → List Report
  | [] => []
  | s1 :: tl => find_intersections_inner objId s1 tl ++ find_intersections_outer objId tl

/-- `find_intersections()`: true iff the scan found any intersection;
the reports are exactly the intersections the scan found. -/
def find_intersections (objId : Int) (segs : List NodeRefSegment) : Bool × List Report :=
  let reps := find_intersections_outer objId segs
  (!reps.isEmpty, reps)

/-- `has_closed_subring_end`: after appending at the end, search the
ring interior (excluding first and last segment) for a segment whose
first endpoint is co-located with the newly attached endpoint; split the
ring there, the suffix becoming a new ring appended to the ring list. -/
def has_closed_subring_end (rings : List ProtoRing) (i : Nat) (segment : NodeRefSegment) :
    List ProtoRing :=
  let ring := rings.getD i default
  if ring.segments.length < 3 then rings
  else
    let nr := segment.second
    let interior := (ring.segments.drop 1).take (ring.segments.length - 2)
    match interior.findIdx? (fun t => decide (t.first.location = nr.location)) with
    | none => rings
    | some k =>
      let j := k + 1
      let newRing : ProtoRing := { segments := ring.segments.drop j }
      let ring' := { ring with segments := ring.segments.take j }
      (rings.set i ring') ++ [newRing]

/-- `has_closed_subring_start`: symmetric split after prepending at the
start; the prefix becomes a new ring appended to the ring list. -/
def has_closed_subring_start (rings : List ProtoRing) (i : Nat) (segment : NodeRefSegment) :
    List ProtoRing :=
  let ring := rings.getD i default
  if ring.segments.length < 3 then rings
  else
    let nr := segment.first
    let interior := (ring.segments.drop 1).take (ring.segments.length - 2)
    match interior.findIdx? (fun t => decide (t.second.location = nr.location)) with
    | none => rings
    | some k =>
      let j := k + 1
      let newRing : ProtoRing := { segments := ring.segments.take (j + 1) }
      let ring' := { ring with segments := ring.segments.drop (j + 1) }
      (rings.set i ring') ++ [newRing]

/-- Scan of `possibly_combine_rings_end`: the first other open ring
whose first (flag `true`) or last (flag `false`) endpoint meets `nr`. -/
def combine_end_scan (nr : NodeRef) (i : Nat) : Nat → List ProtoRing → Option (Nat × Bool)
  | _, [] => none
  | j, r :: tl =>
    if j = i ∨ r.closed then combine_end_scan nr i (j + 1) tl
    else if r.first_segment.first.location = nr.location then some (j, true)
    else if r.last_segment.second.location = nr.location then some (j, false)
    else combine_end_scan nr i (j + 1) tl

/-- `possibly_combine_rings_end`: merge another open ring onto the end
of ring `i` if their endpoints meet; returns the new ring list, whether
a merge happened, and the merged ring's position. -/
def possibly_combine_rings_end (rings : List ProtoRing) (i : Nat) :
    List ProtoRing × Bool × Nat :=
  let ring := rings.getD i default
  let nr := ring.last_segment.second
  match combine_end_scan nr i 0 rings with
  | none => (rings, false, i)
  | some (j, atFirst) =>
    let other := rings.getD j default
    let ring' := if atFirst then ring.merge_ring other else ring.merge_ring_reverse other
    (((rings.set i ring').eraseIdx j), true, if j < i then i - 1 else i)

/-- Scan of `possibly_combine_rings_start`: the first other open ring
whose last (flag `true`) or first (flag `false`) endpoint meets `nr`. -/
def combine_start_scan (nr : NodeRef) (i : Nat) : Nat → List ProtoRing → Option (Nat × Bool)
  | _, [] => none
  | j, r :: tl =>
    if j = i ∨ r.closed then combine_start_scan nr i (j + 1) tl
    else if r.last_segment.second.location = nr.location then some (j, true)
    else if r.first_segment.first.location = nr.location then some (j, false)
    else combine_start_scan nr i (j + 1) tl

/-- `possibly_combine_rings_start`: merge another open ring onto the
start of ring `i` if their endpoints meet (swapping or reversing so the
orientations align). -/
def possibly_combine_rings_start (rings : List ProtoRing) (i : Nat) :
    List ProtoRing × Bool × Nat :=
  let ring := rings.getD i default
  let nr := ring.first_segment.first
  match combine_start_scan nr i 0 rings with
  | none => (rings, false, i)
  | some (j, atLast) =>
    let other := rings.getD j default
    let ring' :=
      if atLast then { ring with segments := other.segments ++ ring.segments }
      else ring.reverse.merge_ring other
    (((rings.set i ring').eraseIdx j), true, if j < i then i - 1 else i)

/-- The adjacent-find of `check_for_closed_subring`: the first adjacent
pair of the sorted copy sharing a first endpoint location. -/
def adjacent_same_first : List NodeRefSegment → Option (NodeRefSegment × NodeRefSegment)
  | [] => none
  | [_] => none
  | a :: b :: tl =>
    if a.first.location = b.first.location then some (a, b)
    else adjacent_same_first (b :: tl)

/-- `check_for_closed_subring`: find two segments of ring `i` sharing a
first endpoint location; split the span between their positions off as
its own ring. -/
def check_for_closed_subring (rings : List ProtoRing) (i : Nat) : List ProtoRing :=
  let ring := rings.getD i default
  match adjacent_same_first (List.insertionSort segLe ring.segments) with
  | none => rings
  | some (sa, sb) =>
    let r1 := ring.segments.findIdx (fun t => decide (t.eqLoc sa))
    let r2 := ring.segments.findIdx (fun t => decide (t.eqLoc sb))
    let lo := min r1 r2
    let hi := max r1 r2
    let newRing : ProtoRing := { segments := (ring.segments.drop lo).take (hi - lo) }
    let ring' := { ring with segments := ring.segments.take lo ++ ring.segments.drop hi }
    (rings.set i ring') ++ [newRing]

/-- `combine_rings(segment, ring, at_end)`: attach the segment to ring
`i`, split accidental sub-rings, then try to merge another open ring in
and re-check for sub-rings after a merge. -/
def combine_rings (rings : List ProtoRing) (i : Nat) (segment : NodeRefSegment)
    (at_end : Bool) : List ProtoRing :=
  if at_end then
    let rings1 := rings.set i ((rings.getD i default).add_segment_end segment)
    let rings2 := has_closed_subring_end rings1 i segment
    match possibly_combine_rings_end rings2 i with
    | (rings3, true, i2) => check_for_closed_subring rings3 i2
    | (rings3, false, _) => rings3
  else
    let rings1 := rings.set i ((rings.getD i default).add_segment_start segment)
    let rings2 := has_closed_subring_start rings1 i segment
    match possibly_combine_rings_start rings2 i with
    | (rings3, true, i2) => check_for_closed_subring rings3 i2
    | (rings3, false, _) => rings3

/-- The four endpoint tests of `add_to_existing_ring`, in source
order. -/
inductive MatchKind where
  | endKeep
  | endSwap
  | startSwap
  | startKeep
deriving DecidableEq, Repr

/-- The scan of `add_to_existing_ring`: rings in creation order, closed
rings skipped, four endpoint tests in order; first match wins. -/
def add_to_existing_ring_scan (segment : NodeRefSegment) :
    Nat → List ProtoRing → Option (Nat × MatchKind)
  | _, [] => none
  | i, r :: tl =>
    if r.closed then add_to_existing_ring_scan segment (i + 1) tl
    else if r.last_segment.second.location = segment.first.location then some (i, MatchKind.endKeep)
    else if r.last_segment.second.location = segment.second.location then some (i, MatchKind.endSwap)
    else if r.first_segment.first.location = segment.first.location then some (i, MatchKind.startSwap)
    else if r.first_segment.first.location = segment.second.location then some (i, MatchKind.startKeep)
    else add_to_existing_ring_scan segment (i + 1) tl

/-- One segment consumed by the ring-building loop of `stage2`:
attach to the first matching ring (swapping the segment for the middle
two tests), or start a new ring containing only the segment. -/
def stage2_add_segment (rings : List ProtoRing) (segment : NodeRefSegment) :
    List ProtoRing :=
  match add_to_existing_ring_scan segment 0 rings with
  | some (i, MatchKind.endKeep) => combine_rings rings i segment true
  | some (i, MatchKind.endSwap) => combine_rings rings i segment.swap_locations true
  | some (i, MatchKind.startSwap) => combine_rings rings i segment.swap_locations false
  | some (i, MatchKind.startKeep) => combine_rings rings i segment false
  | none => rings ++ [{ segments := [segment] }]

/-- The ring-building loop of `stage2`. -/
def build_rings (segs : List NodeRefSegment) : List ProtoRing :=
  segs.foldl stage2_add_segment []

/-- `check_for_open_rings`: report the dangling endpoints of every ring
that is not closed; true iff any ring is open. -/
def check_for_open_rings (objId : Int) (rings : List ProtoRing) : Bool × List Report :=
  rings.foldl
    (fun acc r =>
      if r.closed then acc
      else (true,
        acc.2 ++ [Report.ringNotClosed objId r.first_segment.first.location
          r.last_segment.second.location]))
    (false, [])

/-- `check_inner_outer`: ray-cast from the ring's minimum vertex over
the sorted segment list (with an x early exit), count crossings to the
left, correct for rays grazing the vertex, and flag the ring inner when
the parity is odd. -/
def check_inner_outer (segs : List NodeRefSegment) (ring : ProtoRing) : ProtoRing :=
  let mn := ring.min_node
  let visited := segs.takeWhile (fun s => decide (s.first.location.x ≤ mn.location.x))
  let relevant := visited.filter (fun s => !decide (ring.containsSeg s))
  let count := relevant.countP (fun s => decide (to_left_of s mn.location))
  let above :=
    relevant.countP (fun s =>
      decide (s.first.location = mn.location ∧ s.second.location.y > mn.location.y)) +
    relevant.countP (fun s =>
      decide (s.second.location = mn.location ∧ s.first.location.y > mn.location.y))
  if (count + above % 2) % 2 = 1 then ring.set_inner else ring

/-- The classification and winding-normalization loop of `stage2`
(lines 780-796): with exactly one ring it is registered outer
untouched; otherwise each ring is classified, outer rings are reversed
when not clockwise, inner rings are reversed when clockwise. -/
def classify_rings (segs : List NodeRefSegment) (rings : List ProtoRing) :
    List ProtoRing × List ProtoRing :=
  if rings.length = 1 then (rings, [])
  else
    rings.foldl
      (fun acc ring =>
        let r := check_inner_outer segs ring
        if r.outerFlag then
          (acc.1 ++ [if decide r.is_cw then r else r.reverse], acc.2)
        else
          (acc.1, acc.2 ++ [if decide r.is_cw then r.reverse else r]))
      ([], [])

/-- Sort order of the outer rings before inner-ring assignment: area
ascending. -/
def areaLe (a b : ProtoRing) : Prop := a.area ≤ b.area

instance : DecidableRel areaLe := fun a b => by
  unfold areaLe; infer_instance

instance : IsTotal ProtoRing areaLe := ⟨fun a b => Nat.le_total a.area b.area⟩

instance : IsTrans ProtoRing areaLe := ⟨fun _ _ _ hab hbc => Nat.le_trans hab hbc⟩

/-- The outer-ring sort of `stage2` (smallest area first). -/
def sort_outer_rings (outers : List ProtoRing) : List ProtoRing :=
  List.insertionSort areaLe outers

/-- Append an inner ring to the `k`-th outer-ring group. -/
def attach_at (gs : List (ProtoRing × List ProtoRing)) (k : Nat) (inner : ProtoRing) :
    List (ProtoRing × List ProtoRing) :=
  gs.set k ((gs.getD k default).1, (gs.getD k default).2 ++ [inner])

/-- The nesting-assignment step of `stage2` (lines 798-815): with one
outer ring every inner ring attaches to it; otherwise outer rings are
sorted by area ascending and each inner ring goes to the first sorted
outer ring that contains it. -/
def assign_inner_rings (outers inners : List ProtoRing) :
    List (ProtoRing × List ProtoRing) :=
  if outers.length = 1 then [(outers.headI, inners)]
  else
    let sorted := sort_outer_rings outers
    inners.foldl
      (fun gs inner =>
        match sorted.findIdx? (fun o => decide (inner.is_in o)) with
        | some k => attach_at gs k inner
        | none => gs)
      (sorted.map (fun o => (o, ([] : List ProtoRing))))

/-- `check_inner_outer_roles`: report every segment of an outer ring
whose role is not "outer" and every segment of an inner ring whose role
is not "inner"; the count of mismatches gates the inner-way rescue. -/
def check_inner_outer_roles (objId : Int) (outers inners : List ProtoRing) :
    Nat × List Report :=
  let oreps := outers.foldl
    (fun acc r => acc ++
      (r.segments.filter (fun s => !decide s.role_outer)).map
        (fun s => Report.roleShouldBeOuter objId s.way.id s.first.location s.second.location))
    []
  let ireps := inners.foldl
    (fun acc r => acc ++
      (r.segments.filter (fun s => !decide s.role_inner)).map
        (fun s => Report.roleShouldBeInner objId s.way.id s.first.location s.second.location))
    []
  (oreps.length + ireps.length, oreps ++ ireps)

/-- Result of `stage2`: success flag, the reports issued, the outer
ring groups (outer ring with its attached inner rings, in emission
order) and the role-mismatch count. -/
structure Stage2Result where
  ok : Bool
  reports : List Report
  groups : List (ProtoRing × List ProtoRing)
  mismatches : Nat
deriving Repr

/-- `stage2()`: sort and dedup the segments, abort on intersections,
build rings, abort on open rings, classify and normalize windings,
assign inner rings, and audit the roles. -/
def stage2 (objId : Int) (segs0 : List NodeRefSegment) : Stage2Result :=
  let segs := prepare_segments segs0
  let found := find_intersections objId segs
  if found.1 then ⟨false, found.2, [], 0⟩
  else
    let rings := build_rings segs
    let opened := check_for_open_rings objId rings
    if opened.1 then ⟨false, found.2 ++ opened.2, [], 0⟩
    else
      let classified := classify_rings segs rings
      let groups := assign_inner_rings classified.1 classified.2
      let audit := check_inner_outer_roles objId (groups.map Prod.fst) classified.2
      ⟨true, found.2 ++ opened.2 ++ audit.2, groups, audit.1⟩

/-- The node-ref sequence a ring is emitted as by `add_rings_to_area`:
the first segment's first endpoint, then every segment's second
endpoint. -/
def ring_node_refs (r : ProtoRing) : List NodeRef :=
  r.first_segment.first :: r.segments.map NodeRefSegment.second

/-- `add_rings_to_area`: each outer ring with its inner rings, in
order. -/
def add_rings_to_area (groups : List (ProtoRing × List ProtoRing)) :
    List (List NodeRef × List (List NodeRef)) :=
  groups.map (fun g => (ring_node_refs g.1, g.2.map ring_node_refs))

/-- The keys ignored when deciding whether a relation has its own
tags (`add_tags_to_area` for relations). -/
def ignore_keys : List String :=
  ["type", "created_by", "source", "note", "test:id", "test:section"]

/-- The keys ignored by the inner-way rescue step of
`operator()(relation)`; note the source omits "type" here. -/
def rescue_ignore_keys : List String :=
  ["created_by", "source", "note", "test:id", "test:section"]

/-- Modelled from the spec: the tag `KeyFilter` keeps exactly the tags
whose key is not in the deny list (§4.5). -/
def filter_tags (deny : List String) (tags : List Tag) : List Tag :=
  tags.filter (fun t => !(deny.contains t.1))

/-- The deduplicated set of origin ways of the outer rings
(`std::set<const osmium::Way*>` filled by `get_ways`). -/
def get_ways_of_outers (outers : List ProtoRing) : List Way :=
  (outers.foldl (fun acc r => acc ++ r.get_ways) []).dedup

/-- Order in which the common-tag map iterates: by key, then value. -/
def tagLe (s t : Tag) : Prop := s.1 < t.1 ∨ (s.1 = t.1 ∧ s.2 ≤ t.2)

instance : DecidableRel tagLe := fun s t => by
  unfold tagLe; infer_instance

/-- `add_common_tags`: count every (key, value) occurrence over the
outer origin ways and keep the pairs whose count equals the number of
ways. -/
def add_common_tags (ways : List Way) : List Tag :=
  let pairs := ways.foldl (fun acc w => acc ++ w.tags) []
  (List.insertionSort tagLe pairs.dedup).filter (fun t => pairs.count t = ways.length)

/-- `add_tags_to_area` for a relation: use the relation's tags minus
`type` when any non-ignored tag exists; otherwise copy the single outer
origin way's tags, or the tags common to all outer origin ways. -/
def add_tags_to_area_relation (rel : Relation) (outers : List ProtoRing) : List Tag :=
  if (filter_tags ignore_keys rel.tags).length > 0 then
    rel.tags.filter (fun t => t.1 != "type")
  else
    let ways := get_ways_of_outers outers
    if ways.length = 1 then ways.headI.tags
    else add_common_tags ways

/-- Area header: id and metadata (`initialize_area_from_object`). -/
structure AreaHeader where
  id : Int
  version : Int
  changeset : Int
  timestamp : Int
  visible : Bool
  uid : Int
  user : String
deriving DecidableEq, Repr, Inhabited

/-- One committed area record: the header is always present; tags and
rings stay empty when stage 2 fails (areas without rings are defined to
be invalid). -/
structure AreaRecord where
  header : AreaHeader
  tags : List Tag
  rings : List (List NodeRef × List (List NodeRef))
deriving DecidableEq, Repr, Inhabited

/-- `initialize_area_from_object` for a way: id doubled, offset 0,
metadata copied verbatim. -/
def area_header_from_way (w : Way) : AreaHeader :=
  ⟨w.id * 2 + 0, w.version, w.changeset, w.timestamp, w.visible, w.uid, w.user⟩

/-- `initialize_area_from_object` for a relation: id doubled, offset 1,
metadata copied verbatim. -/
def area_header_from_relation (rel : Relation) : AreaHeader :=
  ⟨rel.id * 2 + 1, rel.version, rel.changeset, rel.timestamp, rel.visible, rel.uid, rel.user⟩

/-- `operator()(way, out_buffer)`: commit the header, run stage 2, and
on success add the way's tags and the rings. -/
def assemble_way (w : Way) : AreaRecord × List Report :=
  let reps0 :=
    if w.ends_have_same_id then []
    else [Report.duplicateNode w.nodes.headI.ref w.nodes.getLastI.ref w.nodes.headI.location]
  let st := stage2 w.id (extract_segments_from_way w Role.outer)
  if st.ok then
    ({ header := area_header_from_way w, tags := w.tags,
       rings := add_rings_to_area st.groups }, reps0 ++ st.reports)
  else
    ({ header := area_header_from_way w, tags := [], rings := [] }, reps0 ++ st.reports)

/-- The inner-way rescue loop at the end of `operator()(relation)`:
for each member with role "inner" whose way is closed and tagged, with
a non-empty tag set after the rescue ignore list, emit a standalone
area from that way alone when its filtered tags differ from the area's
filtered tags. -/
def rescue_inner_ways (areaTags : List Tag) : List Member → List AreaRecord × List Report
  | [] => ([], [])
  | m :: tl =>
    let rest := rescue_inner_ways areaTags tl
    if m.role = "inner" then
      if m.way.is_closed ∧ m.way.tags.length > 0 then
        let fw := filter_tags rescue_ignore_keys m.way.tags
        if fw.length > 0 then
          if fw ≠ filter_tags rescue_ignore_keys areaTags then
            ((assemble_way m.way).1 :: rest.1, (assemble_way m.way).2 ++ rest.2)
          else rest
        else rest
      else rest
    else rest

/-- `operator()(relation, members, in_buffer, out_buffer)`: commit the
header, run stage 2, on success add the relation-policy tags and the
rings, then (only when the role audit found no mismatch) rescue inner
ways carrying their own tags.  Returns the main record, the rescued
records in member order, and the reports. -/
def assemble_relation (rel : Relation) : AreaRecord × List AreaRecord × List Report :=
  let st := stage2 rel.id (extract_segments_from_ways rel)
  if st.ok then
    let tags := add_tags_to_area_relation rel (st.groups.map Prod.fst)
    let main : AreaRecord :=
      { header := area_header_from_relation rel, tags := tags,
        rings := add_rings_to_area st.groups }
    let rescued :=
      if st.mismatches = 0 then rescue_inner_ways tags rel.members
      else ([], [])
    (main, rescued.1, st.reports ++ rescued.2)
  else
    ({ header := area_header_from_relation rel, tags := [], rings := [] }, [], st.reports)

/-- The stage-2 run performed by `operator()(way)`. -/
def stage2_of_way (w : Way) : Stage2Result :=
  stage2 w.id (extract_segments_from_way w Role.outer)

/-- The stage-2 run performed by `operator()(relation)`. -/
def stage2_of_relation (rel : Relation) : Stage2Result :=
  stage2 rel.id (extract_segments_from_ways rel)

/-- The deduplicated outer origin ways of a relation assembly. -/
def relation_outer_ways (rel : Relation) : List Way :=
  get_ways_of_outers ((stage2_of_relation rel).groups.map Prod.fst)

/-- Twice the signed area of an emitted node-ref ring (shoelace over
the cyclic node sequence); positive means counter-clockwise. -/
def shoelace (l : List NodeRef) : Int :=
  (l.zip (l.drop 1 ++ l.take 1)).foldl
    (fun acc p => acc + (p.1.location.x * p.2.location.y - p.2.location.x * p.1.location.y)) 0

/-- The winding normalization applied to a ring classified outer:
reversed exactly when it is not clockwise. -/
def normalize_outer_ring (r : ProtoRing) : ProtoRing :=
  if decide r.is_cw then r else r.reverse

/-- The winding normalization applied to a ring classified inner:
reversed exactly when it is clockwise. -/
def normalize_inner_ring (r : ProtoRing) : ProtoRing :=
  if decide r.is_cw then r.reverse else r

/-- Predicate version of the rescue condition actually implemented by
`operator()(relation)`: member role "inner", closed and tagged way,
non-empty tag set after the rescue ignore list (which does not contain
"type"), and filtered tags differing from the area's filtered tags. -/
def rescue_trigger (areaTags : List Tag) (m : Member) : Prop :=
  m.role = "inner" ∧ m.way.is_closed ∧ m.way.tags.length > 0 ∧
    (filter_tags rescue_ignore_keys m.way.tags).length > 0 ∧
    filter_tags rescue_ignore_keys m.way.tags ≠ filter_tags rescue_ignore_keys areaTags

instance (areaTags : List Tag) (m : Member) : Decidable (rescue_trigger areaTags m) := by
  unfold rescue_trigger; infer_instance

/-- Declarative form of the rescue step: one standalone area, built
from the inner way alone, per triggering member, in member order. -/
def rescue_spec (areaTags : List Tag) (members : List Member) : List AreaRecord :=
  (members.filter (fun m => decide (rescue_trigger areaTags m))).map
    (fun m => (assemble_way m.way).1)

/-- The four endpoint tests of the ring-attachment scan, as the spec
lists them: on an open ring, ring-last/segment-first (append), then
ring-last/segment-second (swap and append), then
ring-first/segment-first (swap and prepend), then
ring-first/segment-second (prepend); closed rings match nothing. -/
def ring_match_kind (r : ProtoRing) (segment : NodeRefSegment) : Option MatchKind :=
  if r.closed then none
  else if r.last_segment.second.location = segment.first.location then some MatchKind.endKeep
  else if r.last_segment.second.location = segment.second.location then some MatchKind.endSwap
  else if r.first_segment.first.location = segment.first.location then some MatchKind.startSwap
  else if r.first_segment.first.location = segment.second.location then some MatchKind.startKeep
  else none

/-- Declarative first-match over the ring list in creation order: the
earliest ring (by position) with a matching endpoint test wins. -/
def first_ring_match (rings : List ProtoRing) (segment : NodeRefSegment) :
    Option (Nat × MatchKind) :=
  (rings.enum.filterMap (fun p => (ring_match_kind p.2 segment).map (fun k => (p.1, k)))).head?

/-- Item types dispatched by the diff handler (changesets raise in the
source and are left out of the model). -/
inductive ItemType where
  | node
  | way
  | relation
deriving DecidableEq, Repr, Inhabited

/-- An object in the sorted input stream of the diff handler. -/
structure Item where
  type : ItemType
  id : Int
  version : Int
deriving DecidableEq, Repr, Inhabited

/-- Observable callbacks fired by the diff handler pipeline. -/
inductive DiffEvent where
  | init
  | before (t : ItemType)
  | after (t : ItemType)
  | item (prev cur next : Item)
  | done
deriving DecidableEq, Repr

/-- `apply_item_recurse`: the three-item window passed to the item
callback; the previous (resp. next) iterate is replaced by the current
item when it differs in type or id. -/
def diff_window (prev cur next : Item) : DiffEvent :=
  let p := if prev.type ≠ cur.type ∨ prev.id ≠ cur.id then cur else prev
  let n := if next.type ≠ cur.type ∨ next.id ≠ cur.id then cur else next
  DiffEvent.item p cur n

/-- `apply_before_and_after_recurse`: the lifecycle callbacks fired at
a type boundary (`none` stands for `item_type::undefined`). -/
def before_and_after (last cur : Option ItemType) : List DiffEvent :=
  (match last with
   | none => [DiffEvent.init]
   | some t => [DiffEvent.after t]) ++
  (match cur with
   | none => [DiffEvent.done]
   | some t => [DiffEvent.before t])

/-- The main loop of `diff_handler::apply`: boundary callbacks when the
type changes, then the item callback with the (previous, current,
next) iterators; the last item is passed itself as next and is followed
by the closing boundary. -/
def diff_apply_go (last : Option ItemType) (prev : Item) : List Item → List DiffEvent
  | [] => []
  | it :: rest =>
    let bnd := if last ≠ some it.type then before_and_after last (some it.type) else []
    match rest with
    | [] => bnd ++ [diff_window prev it it] ++ before_and_after (some it.type) none
    | nxt :: _ => bnd ++ [diff_window prev it nxt] ++ diff_apply_go (some it.type) it rest

/-- `diff_handler::apply` over a materialized item stream: `prev`
starts at the first item and `last_type` at undefined; an empty stream
fires nothing. -/
def diff_apply (items : List Item) : List DiffEvent :=
  match items with
  | [] => []
  | first :: _ => diff_apply_go none first items

/-- Maximal runs of consecutive items of equal type. -/
def type_runs : List Item → List (List Item)
  | [] => []
  | x :: t =>
    (x :: t.takeWhile (fun y => y.type == x.type)) ::
      type_runs (t.dropWhile (fun y => y.type == x.type))
termination_by l => l.length
decreasing_by
  simp only [List.length_cons]
  exact Nat.lt_succ_of_le (List.dropWhile_sublist _).length_le

/-- Windows of one run, walked with the actual preceding item; the
last item of the run uses itself as next. -/
def run_windows_go (prev : Item) : List Item → List DiffEvent
  | [] => []
  | [x] => [diff_window prev x x]
  | x :: y :: tl => diff_window prev x y :: run_windows_go x (y :: tl)

/-- Windows of one run: the first item uses itself as previous, the
last uses itself as next, and in between the replacement rule of
`diff_window` applies. -/
def run_windows : List Item → List DiffEvent
  | [] => []
  | x :: t => run_windows_go x (x :: t)

/-- The event stream the specification prescribes after `init`: for
each maximal same-type run, `before_T`, the item windows, `after_T`;
then `done`. -/
def diff_spec_tail (items : List Item) : List DiffEvent :=
  ((type_runs items).map
    (fun run => DiffEvent.before run.headI.type :: run_windows run ++ [DiffEvent.after run.headI.type])).flatten
    ++ [DiffEvent.done]

/-- The full prescribed event stream: nothing for an empty stream,
otherwise `init` followed by the per-run blocks and `done`. -/
def diff_spec_trace (items : List Item) : List DiffEvent :=
  match items with
  | [] => []
  | _ :: _ => DiffEvent.init :: diff_spec_tail items

/-- Node-ref constructor shorthand for the concrete scenarios. -/
def nd (i x y : Int) : NodeRef := ⟨i, ⟨x, y⟩⟩

/-- A closed square way over (0,0)-(10,0)-(10,10)-(0,10). -/
def squareWay : Way :=
  { id := 7, version := 3, changeset := 11, timestamp := 5000, visible := true,
    uid := 42, user := "alice",
    nodes := [nd 1 0 0, nd 2 10 0, nd 3 10 10, nd 4 0 10, nd 1 0 0],
    tags := [("building", "yes")] }

/-- A closed diamond way over (0,2)-(2,0)-(4,2)-(2,4); its single
stitched ring comes out counter-clockwise. -/
def diamondWay : Way :=
  { id := 9, version := 1, changeset := 14, timestamp := 5002, visible := true,
    uid := 45, user := "dave",
    nodes := [nd 11 0 2, nd 12 2 0, nd 13 4 2, nd 14 2 4, nd 11 0 2],
    tags := [] }

/-- A closed inner way over (1,1)-(9,1)-(9,9)-(1,9) carrying only a
`type` tag. -/
def innerWayTyped : Way :=
  { id := 8, version := 1, changeset := 12, timestamp := 5001, visible := true,
    uid := 43, user := "bob",
    nodes := [nd 5 1 1, nd 6 9 1, nd 7 9 9, nd 8 1 9, nd 5 1 1],
    tags := [("type", "boundary")] }

/-- A multipolygon relation: the square as outer ring, the typed inner
way as hole. -/
def squareWithHoleRel : Relation :=
  { id := 100, version := 2, changeset := 13, timestamp := 6000, visible := true,
    uid := 44, user := "carol",
    tags := [("landuse", "forest")],
    members := [⟨"outer", { squareWay with tags := [] }⟩, ⟨"inner", innerWayTyped⟩] }

/-- One diagonal way of the crossing scenario. -/
def diagWayA : Way :=
  { id := 20, version := 1, changeset := 1, timestamp := 1, visible := true,
    uid := 1, user := "u", nodes := [nd 30 0 0, nd 31 10 10], tags := [] }

/-- The other diagonal way of the crossing scenario. -/
def diagWayB : Way :=
  { id := 21, version := 1, changeset := 1, timestamp := 1, visible := true,
    uid := 1, user := "u", nodes := [nd 32 0 10, nd 33 10 0], tags := [] }

/-- A relation whose two member ways cross at (5,5). -/
def crossRel : Relation :=
  { id := 200, version := 1, changeset := 1, timestamp := 1, visible := true,
    uid := 1, user := "u", tags := [("type", "multipolygon")],
    members := [⟨"outer", diagWayA⟩, ⟨"outer", diagWayB⟩] }

/-- An unclosed boundary: three sides of the square only. -/
def openWay : Way :=
  { id := 22, version := 1, changeset := 1, timestamp := 1, visible := true,
    uid := 1, user := "u",
    nodes := [nd 40 0 0, nd 41 10 0, nd 42 10 10, nd 43 0 10], tags := [] }

/-- A relation whose single member leaves an open ring. -/
def openRel : Relation :=
  { id := 300, version := 1, changeset := 1, timestamp := 1, visible := true,
    uid := 1, user := "u", tags := [("type", "multipolygon")],
    members := [⟨"outer", openWay⟩] }

/-- Left square of the adjacent-squares scenario, tagged
landuse=forest, name=Elm. -/
def wayElm : Way :=
  { id := 23, version := 1, changeset := 1, timestamp := 1, visible := true,
    uid := 1, user := "u",
    nodes := [nd 50 0 0, nd 51 10 0, nd 52 10 10, nd 53 0 10, nd 50 0 0],
    tags := [("landuse", "forest"), ("name", "Elm")] }

/-- Right square of the adjacent-squares scenario, tagged
landuse=forest, name=Oak. -/
def wayOak : Way :=
  { id := 24, version := 1, changeset := 1, timestamp := 1, visible := true,
    uid := 1, user := "u",
    nodes := [nd 51 10 0, nd 54 20 0, nd 55 20 10, nd 52 10 10, nd 51 10 0],
    tags := [("landuse", "forest"), ("name", "Oak")] }

/-- Relation of two outer ways sharing an edge, with no non-ignored
relation tags: the tag policy falls back to the common outer-way
tags. -/
def twoSquaresRel : Relation :=
  { id := 400, version := 1, changeset := 1, timestamp := 1, visible := true,
    uid := 1, user := "u", tags := [("type", "multipolygon")],
    members := [⟨"outer", wayElm⟩, ⟨"outer", wayOak⟩] }

/-- A report produced through the `report_intersection` callback for
the given object. -/
def is_intersection_report (objId : Int) : Report → Prop
  | Report.intersectionAt o _ _ _ _ _ _ _ => o = objId
  | _ => False

/-- The prepared (sorted, deduplicated) segment list of the
square-with-hole relation. -/
def holeSegs : List NodeRefSegment :=
  prepare_segments (extract_segments_from_ways squareWithHoleRel)

/-- The proto-rings stitched from the square-with-hole segments. -/
def holeRings : List ProtoRing :=
  build_rings holeSegs

/-- A concrete sorted history stream: two versions of node 1, then
node 2, then way 1. -/
def diffItemsEx : List Item :=
  [⟨ItemType.node, 1, 1⟩, ⟨ItemType.node, 1, 2⟩, ⟨ItemType.node, 2, 1⟩,
   ⟨ItemType.way, 1, 1⟩]

theorem assemble_way_header (w : Way) :
    (assemble_way w).1.header = area_header_from_way w := by
  simp only [assemble_way]
  split <;> rfl

theorem assemble_relation_header (rel : Relation) :
    (assemble_relation rel).1.header = area_header_from_relation rel := by
  simp only [assemble_relation]
  split <;> rfl

/-- C6: the emitted area's id equals the source object's id times 2,
plus 0 for a way and plus 1 for a relation, and version, changeset,
timestamp, visibility, uid and user are copied verbatim from the
source object. -/
theorem c6_id_and_metadata :
    ∀ (w : Way) (rel : Relation),
      (assemble_way w).1.header =
        { id := w.id * 2, version := w.version, changeset := w.changeset,
          timestamp := w.timestamp, visible := w.visible, uid := w.uid, user := w.user } ∧
      (assemble_relation rel).1.header =
        { id := rel.id * 2 + 1, version := rel.version, changeset := rel.changeset,
          timestamp := rel.timestamp, visible := rel.visible, uid := rel.uid,
          user := rel.user } := by
  intro w rel
  refine ⟨?_, ?_⟩
  · rw [assemble_way_header]; simp [area_header_from_way]
  · rw [assemble_relation_header]; simp [area_header_from_relation]

/-- C10: when the segments stitch into exactly one proto-ring, the
classification and the winding normalization are both skipped: the
single ring is registered as outer untouched, every inner list is
empty, and the emitted orientation is whatever the stitching produced,
which can be clockwise (the square, shoelace -200) or
counter-clockwise (the diamond, shoelace 16). -/
theorem c10_single_ring_skips_classification :
    (∀ (segs : List NodeRefSegment) (r : ProtoRing),
        classify_rings segs [r] = ([r], []) ∧
        assign_inner_rings [r] ([] : List ProtoRing) = [(r, [])]) ∧
    (assemble_way squareWay).1.rings.map (fun g => shoelace g.1) = [-200] ∧
    (assemble_way diamondWay).1.rings.map (fun g => shoelace g.1) = [16] ∧
    ((-200 : Int) < 0 ∧ (0 : Int) < 16) := by
  refine ⟨fun segs r => ⟨?_, ?_⟩, ?_, ?_, by norm_num⟩
  · simp [classify_rings]
  · simp [assign_inner_rings]
  · decide
  · decide

theorem stage2_found_intersections (objId : Int) (segs : List NodeRefSegment)
    (h : (find_intersections objId (prepare_segments segs)).1 = true) :
    stage2 objId segs =
      ⟨false, (find_intersections objId (prepare_segments segs)).2, [], 0⟩ := by
  simp [stage2, h]

theorem assemble_way_fail (w : Way) (h : (stage2_of_way w).ok = false) :
    (assemble_way w).1.tags = [] ∧ (assemble_way w).1.rings = [] := by
  unfold stage2_of_way at h
  simp [assemble_way, h]

theorem assemble_relation_fail (rel : Relation) (h : (stage2_of_relation rel).ok = false) :
    (assemble_relation rel).1.tags = [] ∧ (assemble_relation rel).1.rings = [] ∧
      (assemble_relation rel).2.1 = [] := by
  unfold stage2_of_relation at h
  simp [assemble_relation, h]

theorem find_intersections_inner_shape (objId : Int) (s1 : NodeRefSegment) :
    ∀ (l : List NodeRefSegment) (r : Report),
      r ∈ find_intersections_inner objId s1 l → is_intersection_report objId r := by
  intro l
  induction l with
  | nil => intro r hr; simp [find_intersections_inner] at hr
  | cons s2 tl ih =>
    intro r hr
    unfold find_intersections_inner at hr
    split at hr
    · exact ih r hr
    · split at hr
      · simp at hr
      · split at hr
        · split at hr
          · rcases List.mem_cons.mp hr with h | h
            · subst h; simp [is_intersection_report]
            · exact ih r h
          · exact ih r hr
        · exact ih r hr

theorem find_intersections_outer_shape (objId : Int) :
    ∀ (l : List NodeRefSegment) (r : Report),
      r ∈ find_intersections_outer objId l → is_intersection_report objId r := by
  intro l
  induction l with
  | nil => intro r hr; simp [find_intersections_outer] at hr
  | cons s1 tl ih =>
    intro r hr
    unfold find_intersections_outer at hr
    rcases List.mem_append.mp hr with h | h
    · exact find_intersections_inner_shape objId s1 tl r h
    · exact ih r h

theorem find_intersections_found_iff (objId : Int) (segs : List NodeRefSegment) :
    (find_intersections objId segs).1 = true ↔ (find_intersections objId segs).2 ≠ [] := by
  simp [find_intersections]

/-- C3: if the intersection scan finds an intersection between two
distinct segments (`find_intersections` returns true), every
intersection the scan finds is reported through `report_intersection`
(the stage-2 reports are exactly the scan's intersection reports and
nothing else), stage 2 returns false, and the committed record stays
header-only: no ring data and no tags are written, leaving the
zero-ring invalid area. -/
theorem c3_intersection_abort :
    (∀ (objId : Int) (segs : List NodeRefSegment),
        (find_intersections objId (prepare_segments segs)).1 = true →
          (stage2 objId segs).ok = false ∧
          (stage2 objId segs).reports = (find_intersections objId (prepare_segments segs)).2 ∧
          (stage2 objId segs).groups = []) ∧
    (∀ (objId : Int) (segs : List NodeRefSegment),
        ∀ r ∈ (find_intersections objId segs).2, is_intersection_report objId r) ∧
    (∀ (objId : Int) (segs : List NodeRefSegment),
        (find_intersections objId segs).1 = true ↔ (find_intersections objId segs).2 ≠ []) ∧
    (∀ w : Way, (stage2_of_way w).ok = false →
        (assemble_way w).1.tags = [] ∧ (assemble_way w).1.rings = []) ∧
    (∀ rel : Relation, (stage2_of_relation rel).ok = false →
        (assemble_relation rel).1.tags = [] ∧ (assemble_relation rel).1.rings = [] ∧
          (assemble_relation rel).2.1 = []) := by
  refine ⟨?_, ?_, ?_, ?_, ?_⟩
  · intro objId segs h
    rw [stage2_found_intersections objId segs h]
    exact ⟨rfl, rfl, rfl⟩
  · intro objId segs r hr
    exact find_intersections_outer_shape objId segs r hr
  · intro objId segs
    exact find_intersections_found_iff objId segs
  · intro w h
    exact assemble_way_fail w h
  · intro rel h
    exact assemble_relation_fail rel h

theorem c3_intersection_abort_witness :
    (stage2_of_relation crossRel).ok = false ∧
    (assemble_relation crossRel).1.tags = [] ∧
    (assemble_relation crossRel).1.rings = [] ∧
    (assemble_relation crossRel).2.1 = [] ∧
    (stage2_of_relation crossRel).reports =
      [Report.intersectionAt 200 20 ⟨0, 0⟩ ⟨10, 10⟩ 21 ⟨0, 10⟩ ⟨10, 0⟩ ⟨5, 5⟩] := by
  have h1 := c3_intersection_abort.1 crossRel.id (extract_segments_from_ways crossRel) (by decide)
  have h2 := c3_intersection_abort.2.2.2.2 crossRel h1.1
  exact ⟨h1.1, h2.1, h2.2.1, h2.2.2, by decide⟩

theorem check_for_open_rings_fold (objId : Int) :
    ∀ (rings : List ProtoRing) (b : Bool) (reps : List Report),
      rings.foldl
        (fun acc r =>
          if r.closed then acc
          else (true,
            acc.2 ++ [Report.ringNotClosed objId r.first_segment.first.location
              r.last_segment.second.location]))
        (b, reps) =
      (b || rings.any (fun r => !decide r.closed),
       reps ++ (rings.filter (fun r => !decide r.closed)).map
         (fun r => Report.ringNotClosed objId r.first_segment.first.location
           r.last_segment.second.location)) := by
  intro rings
  induction rings with
  | nil => intro b reps; simp
  | cons r tl ih =>
    intro b reps
    by_cases hc : r.closed
    · simp [hc, ih]
    · simp [hc, ih]

theorem check_for_open_rings_eq (objId : Int) (rings : List ProtoRing) :
    check_for_open_rings objId rings =
      (rings.any (fun r => !decide r.closed),
       (rings.filter (fun r => !decide r.closed)).map
         (fun r => Report.ringNotClosed objId r.first_segment.first.location
           r.last_segment.second.location)) := by
  unfold check_for_open_rings
  rw [check_for_open_rings_fold]
  simp

theorem stage2_open_rings (objId : Int) (segs : List NodeRefSegment)
    (h1 : (find_intersections objId (prepare_segments segs)).1 = false)
    (h2 : (check_for_open_rings objId (build_rings (prepare_segments segs))).1 = true) :
    stage2 objId segs =
      ⟨false, (find_intersections objId (prepare_segments segs)).2 ++
              (check_for_open_rings objId (build_rings (prepare_segments segs))).2, [], 0⟩ := by
  simp [stage2, h1, h2]

/-- C5: after all segments are consumed into proto-rings, if any ring
is still open, each open ring is reported through
`report_ring_not_closed` with its first segment's first location and
last segment's second location, stage 2 returns false, and no rings or
tags are added to the already-committed record. -/
theorem c5_open_rings_abort :
    (∀ (objId : Int) (segs : List NodeRefSegment),
        (find_intersections objId (prepare_segments segs)).1 = false →
        (∃ r ∈ build_rings (prepare_segments segs), ¬ r.closed) →
          (stage2 objId segs).ok = false ∧
          (stage2 objId segs).reports =
            (find_intersections objId (prepare_segments segs)).2 ++
              ((build_rings (prepare_segments segs)).filter (fun r => !decide r.closed)).map
                (fun r => Report.ringNotClosed objId r.first_segment.first.location
                  r.last_segment.second.location) ∧
          (stage2 objId segs).groups = []) ∧
    (∀ rel : Relation,
        (find_intersections rel.id (prepare_segments (extract_segments_from_ways rel))).1 = false →
        (∃ r ∈ build_rings (prepare_segments (extract_segments_from_ways rel)), ¬ r.closed) →
          (assemble_relation rel).1.tags = [] ∧ (assemble_relation rel).1.rings = [] ∧
            (assemble_relation rel).2.1 = []) ∧
    (∀ w : Way,
        (find_intersections w.id
            (prepare_segments (extract_segments_from_way w Role.outer))).1 = false →
        (∃ r ∈ build_rings (prepare_segments (extract_segments_from_way w Role.outer)),
            ¬ r.closed) →
          (assemble_way w).1.tags = [] ∧ (assemble_way w).1.rings = []) := by
  have main : ∀ (objId : Int) (segs : List NodeRefSegment),
      (find_intersections objId (prepare_segments segs)).1 = false →
      (∃ r ∈ build_rings (prepare_segments segs), ¬ r.closed) →
        (stage2 objId segs).ok = false ∧
        (stage2 objId segs).reports =
          (find_intersections objId (prepare_segments segs)).2 ++
            ((build_rings (prepare_segments segs)).filter (fun r => !decide r.closed)).map
              (fun r => Report.ringNotClosed objId r.first_segment.first.location
                r.last_segment.second.location) ∧
        (stage2 objId segs).groups = [] := by
    intro objId segs h1 h2
    have hopen : (check_for_open_rings objId (build_rings (prepare_segments segs))).1 = true := by
      rw [check_for_open_rings_eq]
      simp only [List.any_eq_true, Bool.not_eq_true', decide_eq_false_iff_not]
      exact h2
    rw [stage2_open_rings objId segs h1 hopen]
    refine ⟨rfl, ?_, rfl⟩
    rw [check_for_open_rings_eq]
  refine ⟨main, ?_, ?_⟩
  · intro rel h1 h2
    exact assemble_relation_fail rel (main rel.id (extract_segments_from_ways rel) h1 h2).1
  · intro w h1 h2
    exact assemble_way_fail w (main w.id (extract_segments_from_way w Role.outer) h1 h2).1

theorem c5_open_rings_abort_witness :
    (stage2_of_relation openRel).ok = false ∧
    (stage2_of_relation openRel).reports = [Report.ringNotClosed 300 ⟨0, 0⟩ ⟨0, 10⟩] ∧
    (assemble_relation openRel).1.rings = [] := by
  have h := c5_open_rings_abort.1 openRel.id (extract_segments_from_ways openRel)
    (by decide) (by decide)
  have h2 := c5_open_rings_abort.2.1 openRel (by decide) (by decide)
  exact ⟨h.1, by decide, h2.2.1⟩

theorem headI_eq_head_iget {α} [Inhabited α] (l : List α) : l.headI = l.head?.iget := by
  cases l <;> rfl

theorem headI_reverse {α} [Inhabited α] (l : List α) : l.reverse.headI = l.getLastI := by
  rw [headI_eq_head_iget, List.head?_reverse, List.getLastI_eq_getLast?]

theorem getLastI_reverse {α} [Inhabited α] (l : List α) : l.reverse.getLastI = l.headI := by
  rw [List.getLastI_eq_getLast?, List.getLast?_reverse, headI_eq_head_iget]

theorem headI_map {α β} [Inhabited α] [Inhabited β] (f : α → β) (h : f default = default)
    (l : List α) : (l.map f).headI = f l.headI := by
  cases l with
  | nil => simpa using h.symm
  | cons a as => rfl

theorem getLastI_map {α β} [Inhabited α] [Inhabited β] (f : α → β) (h : f default = default)
    (l : List α) : (l.map f).getLastI = f l.getLastI := by
  rw [List.getLastI_eq_getLast?, List.getLastI_eq_getLast?, List.getLast?_map]
  cases hl : l.getLast? with
  | none => simpa using h.symm
  | some a => rfl

theorem first_segment_reverse (r : ProtoRing) :
    r.reverse.first_segment = r.last_segment.swap_locations := by
  show ((r.segments.map NodeRefSegment.swap_locations).reverse).headI = _
  rw [headI_reverse, getLastI_map NodeRefSegment.swap_locations rfl]
  rfl

theorem last_segment_reverse (r : ProtoRing) :
    r.reverse.last_segment = r.first_segment.swap_locations := by
  show ((r.segments.map NodeRefSegment.swap_locations).reverse).getLastI = _
  rw [getLastI_reverse, headI_map NodeRefSegment.swap_locations rfl]
  rfl

theorem closed_reverse (r : ProtoRing) : r.reverse.closed ↔ r.closed := by
  unfold ProtoRing.closed
  rw [first_segment_reverse, last_segment_reverse]
  simp only [NodeRefSegment.swap_locations]
  exact eq_comm

theorem foldl_add_segCross (l : List NodeRefSegment) :
    ∀ a : Int, l.foldl (fun acc s => acc + ProtoRing.segCross s) a =
      a + (l.map ProtoRing.segCross).sum := by
  induction l with
  | nil => intro a; simp
  | cons s tl ih => intro a; simp [ih, add_assoc]

theorem sum_map_neg {α} (l : List α) (f : α → Int) :
    (l.map (fun s => -(f s))).sum = -((l.map f).sum) := by
  induction l with
  | nil => simp
  | cons a tl ih => simp [ih]; ring

theorem segCross_swap (s : NodeRefSegment) :
    ProtoRing.segCross s.swap_locations = -ProtoRing.segCross s := by
  simp [ProtoRing.segCross, NodeRefSegment.swap_locations]

theorem sum_reverse (r : ProtoRing) : r.reverse.sum = -r.sum := by
  show ((r.segments.map NodeRefSegment.swap_locations).reverse).foldl _ 0 = _
  unfold ProtoRing.sum
  rw [foldl_add_segCross, foldl_add_segCross]
  simp only [zero_add, List.map_reverse, List.sum_reverse, List.map_map]
  have hfun : (ProtoRing.segCross ∘ NodeRefSegment.swap_locations) =
      fun s => -(ProtoRing.segCross s) :=
    funext fun s => segCross_swap s
  rw [hfun, sum_map_neg]

theorem check_inner_outer_segments (segs : List NodeRefSegment) (r : ProtoRing) :
    (check_inner_outer segs r).segments = r.segments := by
  simp only [check_inner_outer]
  split <;> rfl

theorem closed_congr_segments {a b : ProtoRing} (h : a.segments = b.segments) :
    a.closed ↔ b.closed := by
  unfold ProtoRing.closed ProtoRing.first_segment ProtoRing.last_segment
  rw [h]

theorem classify_rings_fold (segs : List NodeRefSegment) :
    ∀ (rings : List ProtoRing) (acc : List ProtoRing × List ProtoRing),
      rings.foldl
        (fun acc ring =>
          let r := check_inner_outer segs ring
          if r.outerFlag then
            (acc.1 ++ [if decide r.is_cw then r else r.reverse], acc.2)
          else
            (acc.1, acc.2 ++ [if decide r.is_cw then r.reverse else r]))
        acc =
      (acc.1 ++ ((rings.map (check_inner_outer segs)).filter
          (fun r => r.outerFlag)).map normalize_outer_ring,
       acc.2 ++ ((rings.map (check_inner_outer segs)).filter
          (fun r => !r.outerFlag)).map normalize_inner_ring) := by
  intro rings
  induction rings with
  | nil => intro acc; simp
  | cons ring tl ih =>
    intro acc
    rw [List.foldl_cons, ih]
    by_cases hc : (check_inner_outer segs ring).outerFlag
    · simp [hc, normalize_outer_ring, normalize_inner_ring]
    · simp [hc, normalize_outer_ring, normalize_inner_ring]

theorem classify_rings_eq (segs : List NodeRefSegment) (rings : List ProtoRing)
    (h : rings.length ≠ 1) :
    classify_rings segs rings =
      (((rings.map (check_inner_outer segs)).filter
          (fun r => r.outerFlag)).map normalize_outer_ring,
       ((rings.map (check_inner_outer segs)).filter
          (fun r => !r.outerFlag)).map normalize_inner_ring) := by
  unfold classify_rings
  rw [if_neg h, classify_rings_fold]
  simp

/-- C1 (amended): for the multi-ring path, the winding-normalization
step after classification reverses exactly those outer rings that are
not clockwise and those inner rings that are clockwise; consequently
every emitted outer ring is closed with non-positive signed area
(clockwise up to degeneracy) and every emitted inner ring is closed
with non-negative signed area (counter-clockwise up to degeneracy) —
the reverse of the orientation the claim states. -/
theorem c1_winding_normalization (segs : List NodeRefSegment) (rings : List ProtoRing)
    (hlen : rings.length ≠ 1) (hcl : ∀ r ∈ rings, r.closed) :
    (classify_rings segs rings).1 =
      ((rings.map (check_inner_outer segs)).filter
        (fun r => r.outerFlag)).map normalize_outer_ring ∧
    (classify_rings segs rings).2 =
      ((rings.map (check_inner_outer segs)).filter
        (fun r => !r.outerFlag)).map normalize_inner_ring ∧
    (∀ r ∈ (classify_rings segs rings).1, r.sum ≤ 0 ∧ r.closed) ∧
    (∀ r ∈ (classify_rings segs rings).2, 0 ≤ r.sum ∧ r.closed) := by
  have heq := classify_rings_eq segs rings hlen
  refine ⟨by rw [heq], by rw [heq], ?_, ?_⟩
  · intro r hr
    rw [heq] at hr
    simp only [List.mem_map, List.mem_filter] at hr
    obtain ⟨r0, ⟨hr0mem, _⟩, hnorm⟩ := hr
    obtain ⟨r1, hr1, hchk⟩ := hr0mem
    have hseg : r0.segments = r1.segments := by
      rw [← hchk]; exact check_inner_outer_segments segs r1
    have hcl0 : r0.closed := (closed_congr_segments hseg).mpr (hcl r1 hr1)
    subst hnorm
    unfold normalize_outer_ring
    by_cases hcw : r0.is_cw
    · rw [if_pos (decide_eq_true hcw)]
      exact ⟨le_of_lt hcw, hcl0⟩
    · rw [if_neg (by simpa using hcw)]
      have hge : 0 ≤ r0.sum := not_lt.mp hcw
      refine ⟨?_, (closed_reverse r0).mpr hcl0⟩
      rw [sum_reverse]
      omega
  · intro r hr
    rw [heq] at hr
    simp only [List.mem_map, List.mem_filter] at hr
    obtain ⟨r0, ⟨hr0mem, _⟩, hnorm⟩ := hr
    obtain ⟨r1, hr1, hchk⟩ := hr0mem
    have hseg : r0.segments = r1.segments := by
      rw [← hchk]; exact check_inner_outer_segments segs r1
    have hcl0 : r0.closed := (closed_congr_segments hseg).mpr (hcl r1 hr1)
    subst hnorm
    unfold normalize_inner_ring
    by_cases hcw : r0.is_cw
    · rw [if_pos (decide_eq_true hcw)]
      have hlt : r0.sum < 0 := hcw
      refine ⟨?_, (closed_reverse r0).mpr hcl0⟩
      rw [sum_reverse]
      omega
    · rw [if_neg (by simpa using hcw)]
      exact ⟨not_lt.mp hcw, hcl0⟩

theorem c1_winding_normalization_witness :
    (∀ r ∈ (classify_rings holeSegs holeRings).1, r.sum ≤ 0 ∧ r.closed) ∧
    (∀ r ∈ (classify_rings holeSegs holeRings).2, 0 ≤ r.sum ∧ r.closed) := by
  have h := c1_winding_normalization holeSegs holeRings (by decide) (by decide)
  exact ⟨h.2.2.1, h.2.2.2⟩

/-- C1 counterexample: the square-with-hole relation assembles
successfully, and its emitted outer ring has shoelace -200 (clockwise,
not counter-clockwise) while its inner ring has shoelace 128
(counter-clockwise, not clockwise) — the opposite windings from the
ones the claim asserts. -/
theorem c1_winding_counterexample :
    (assemble_relation squareWithHoleRel).1.rings.map
        (fun g => (shoelace g.1, g.2.map shoelace)) = [(-200, [128])] ∧
    ((-200 : Int) < 0 ∧ (0 : Int) < 128) :=
  ⟨by decide, by norm_num⟩

theorem rescue_inner_ways_eq (areaTags : List Tag) :
    ∀ members : List Member,
      (rescue_inner_ways areaTags members).1 = rescue_spec areaTags members := by
  intro members
  induction members with
  | nil => rfl
  | cons m tl ih =>
    have hspec : rescue_spec areaTags (m :: tl) =
        (if rescue_trigger areaTags m then [(assemble_way m.way).1] else []) ++
          rescue_spec areaTags tl := by
      unfold rescue_spec
      rw [List.filter_cons]
      by_cases ht : rescue_trigger areaTags m
      · simp [ht]
      · simp [ht]
    rw [hspec]
    simp only [rescue_inner_ways]
    by_cases h1 : m.role = "inner"
    · rw [if_pos h1]
      by_cases h2 : m.way.is_closed ∧ m.way.tags.length > 0
      · rw [if_pos h2]
        by_cases h3 : (filter_tags rescue_ignore_keys m.way.tags).length > 0
        · rw [if_pos h3]
          by_cases h4 : filter_tags rescue_ignore_keys m.way.tags ≠
              filter_tags rescue_ignore_keys areaTags
          · rw [if_pos h4]
            have ht : rescue_trigger areaTags m := ⟨h1, h2.1, h2.2, h3, h4⟩
            simp [ht, ih]
          · rw [if_neg h4]
            have ht : ¬ rescue_trigger areaTags m := fun c => h4 c.2.2.2.2
            simp [ht, ih]
        · rw [if_neg h3]
          have ht : ¬ rescue_trigger areaTags m := fun c => h3 c.2.2.2.1
          simp [ht, ih]
      · rw [if_neg h2]
        have ht : ¬ rescue_trigger areaTags m := fun c => h2 ⟨c.2.1, c.2.2.1⟩
        simp [ht, ih]
    · rw [if_neg h1]
      have ht : ¬ rescue_trigger areaTags m := fun c => h1 c.1
      simp [ht, ih]

theorem assemble_relation_ok_tags (rel : Relation)
    (hok : (stage2_of_relation rel).ok = true) :
    (assemble_relation rel).1.tags =
      add_tags_to_area_relation rel ((stage2_of_relation rel).groups.map Prod.fst) := by
  unfold stage2_of_relation at hok ⊢
  simp [assemble_relation, hok]

theorem assemble_relation_ok_rescued (rel : Relation)
    (hok : (stage2_of_relation rel).ok = true) :
    (assemble_relation rel).2.1 =
      if (stage2_of_relation rel).mismatches = 0 then
        (rescue_inner_ways ((assemble_relation rel).1.tags) rel.members).1
      else [] := by
  rw [assemble_relation_ok_tags rel hok]
  unfold stage2_of_relation at hok ⊢
  simp only [assemble_relation, hok, if_true]
  by_cases hm : (stage2 rel.id (extract_segments_from_ways rel)).mismatches = 0
  · simp [hm]
  · simp [hm]

/-- C4 (amended): for a relation-sourced assembly that succeeds with a
zero role-audit count, the assembler emits one standalone area
(assembled from the inner way alone) for exactly those members with
role "inner" whose way is closed and tagged, whose tag set after the
ignore list {created_by, source, note, test:id, test:section} — which,
unlike the claim's list, does not contain "type" — is non-empty and
differs from the area's filtered tag set; a non-zero role-audit count
suppresses all rescue emissions. -/
theorem c4_inner_way_rescue (rel : Relation)
    (hok : (stage2_of_relation rel).ok = true) :
    ((stage2_of_relation rel).mismatches = 0 →
      (assemble_relation rel).2.1 =
        rescue_spec ((assemble_relation rel).1.tags) rel.members) ∧
    ((stage2_of_relation rel).mismatches ≠ 0 → (assemble_relation rel).2.1 = []) := by
  refine ⟨fun hm => ?_, fun hm => ?_⟩
  · rw [assemble_relation_ok_rescued rel hok, if_pos hm, rescue_inner_ways_eq]
  · rw [assemble_relation_ok_rescued rel hok, if_neg hm]

theorem c4_inner_way_rescue_witness :
    (assemble_relation squareWithHoleRel).2.1 =
      rescue_spec ((assemble_relation squareWithHoleRel).1.tags)
        squareWithHoleRel.members :=
  (c4_inner_way_rescue squareWithHoleRel (by decide)).1 (by decide)

/-- C4 counterexample: the square-with-hole relation succeeds with a
zero role-audit count, and its inner member way carries only the tag
type=boundary, whose tag set after the claim's ignore list
{type, created_by, source, note, test:id, test:section} is empty — so
under the claim no rescue area may be emitted — yet the assembler does
emit a standalone rescue area for that way, because the source's
rescue filter does not ignore "type". -/
theorem c4_rescue_counterexample :
    (assemble_relation squareWithHoleRel).2.1 = [(assemble_way innerWayTyped).1] ∧
    filter_tags ignore_keys innerWayTyped.tags = [] ∧
    squareWithHoleRel.members.map Member.role = ["outer", "inner"] ∧
    (squareWithHoleRel.members.map Member.way).getLastI = innerWayTyped ∧
    (stage2_of_relation squareWithHoleRel).mismatches = 0 ∧
    (stage2_of_relation squareWithHoleRel).ok = true :=
  ⟨by decide, by decide, by decide, by decide, by decide, by decide⟩

theorem add_to_existing_ring_scan_eq (segment : NodeRefSegment) :
    ∀ (l : List ProtoRing) (i : Nat),
      add_to_existing_ring_scan segment i l =
        ((l.enumFrom i).filterMap
          (fun p => (ring_match_kind p.2 segment).map (fun k => (p.1, k)))).head? := by
  intro l
  induction l with
  | nil => intro i; rfl
  | cons r tl ih =>
    intro i
    by_cases hc : r.closed
    · have hk : ring_match_kind r segment = none := by
        unfold ring_match_kind; rw [if_pos hc]
      have hscan : add_to_existing_ring_scan segment i (r :: tl) =
          add_to_existing_ring_scan segment (i + 1) tl := by
        simp only [add_to_existing_ring_scan]; rw [if_pos hc]
      rw [hscan, ih]
      simp [hk]
    · by_cases t1 : r.last_segment.second.location = segment.first.location
      · have hk : ring_match_kind r segment = some MatchKind.endKeep := by
          unfold ring_match_kind; rw [if_neg hc, if_pos t1]
        have hscan : add_to_existing_ring_scan segment i (r :: tl) =
            some (i, MatchKind.endKeep) := by
          simp only [add_to_existing_ring_scan]; rw [if_neg hc, if_pos t1]
        rw [hscan]
        simp [hk]
      · by_cases t2 : r.last_segment.second.location = segment.second.location
        · have hk : ring_match_kind r segment = some MatchKind.endSwap := by
            unfold ring_match_kind; rw [if_neg hc, if_neg t1, if_pos t2]
          have hscan : add_to_existing_ring_scan segment i (r :: tl) =
              some (i, MatchKind.endSwap) := by
            simp only [add_to_existing_ring_scan]; rw [if_neg hc, if_neg t1, if_pos t2]
          rw [hscan]
          simp [hk]
        · by_cases t3 : r.first_segment.first.location = segment.first.location
          · have hk : ring_match_kind r segment = some MatchKind.startSwap := by
              unfold ring_match_kind; rw [if_neg hc, if_neg t1, if_neg t2, if_pos t3]
            have hscan : add_to_existing_ring_scan segment i (r :: tl) =
                some (i, MatchKind.startSwap) := by
              simp only [add_to_existing_ring_scan]
              rw [if_neg hc, if_neg t1, if_neg t2, if_pos t3]
            rw [hscan]
            simp [hk]
          · by_cases t4 : r.first_segment.first.location = segment.second.location
            · have hk : ring_match_kind r segment = some MatchKind.startKeep := by
                unfold ring_match_kind
                rw [if_neg hc, if_neg t1, if_neg t2, if_neg t3, if_pos t4]
              have hscan : add_to_existing_ring_scan segment i (r :: tl) =
                  some (i, MatchKind.startKeep) := by
                simp only [add_to_existing_ring_scan]
                rw [if_neg hc, if_neg t1, if_neg t2, if_neg t3, if_pos t4]
              rw [hscan]
              simp [hk]
            · have hk : ring_match_kind r segment = none := by
                unfold ring_match_kind
                rw [if_neg hc, if_neg t1, if_neg t2, if_neg t3, if_neg t4]
              have hscan : add_to_existing_ring_scan segment i (r :: tl) =
                  add_to_existing_ring_scan segment (i + 1) tl := by
                simp only [add_to_existing_ring_scan]
                rw [if_neg hc, if_neg t1, if_neg t2, if_neg t3, if_neg t4]
              rw [hscan, ih]
              simp [hk]

theorem first_ring_match_eq_enumFrom (rings : List ProtoRing) (segment : NodeRefSegment) :
    first_ring_match rings segment =
      ((rings.enumFrom 0).filterMap
        (fun p => (ring_match_kind p.2 segment).map (fun k => (p.1, k)))).head? := rfl

/-- C8: consuming a segment scans the ring list in creation order,
skipping closed rings, testing the four endpoint matches in source
order (ring-last with segment-first: append unchanged; ring-last with
segment-second: swap then append; ring-first with segment-first: swap
then prepend; ring-first with segment-second: prepend unchanged); the
positionally earliest match wins, and a segment matching no ring
starts a new ring containing only itself at the end of the list. -/
theorem c8_attachment_order :
    ∀ (rings : List ProtoRing) (segment : NodeRefSegment),
      add_to_existing_ring_scan segment 0 rings = first_ring_match rings segment ∧
      (first_ring_match rings segment = none →
        stage2_add_segment rings segment = rings ++ [{ segments := [segment] }]) := by
  intro rings segment
  have h : add_to_existing_ring_scan segment 0 rings = first_ring_match rings segment := by
    rw [add_to_existing_ring_scan_eq segment rings 0, first_ring_match_eq_enumFrom]
  refine ⟨h, fun hn => ?_⟩
  have h0 : add_to_existing_ring_scan segment 0 rings = none := h.trans hn
  simp [stage2_add_segment, h0]

theorem c8_attachment_order_witness :
    stage2_add_segment [] ⟨nd 1 0 0, nd 2 1 0, squareWay, Role.outer⟩ =
      [{ segments := [⟨nd 1 0 0, nd 2 1 0, squareWay, Role.outer⟩] }] :=
  (c8_attachment_order [] ⟨nd 1 0 0, nd 2 1 0, squareWay, Role.outer⟩).2 (by decide)

theorem assign_fold (sorted : List ProtoRing) :
    ∀ (inners : List ProtoRing) (gs : List (ProtoRing × List ProtoRing)) (k : Nat),
      (inners.foldl
        (fun gs inner =>
          match sorted.findIdx? (fun o => decide (inner.is_in o)) with
          | some k => attach_at gs k inner
          | none => gs) gs)[k]? =
      (gs[k]?).map (fun g => (g.1, g.2 ++ inners.filter
        (fun i => sorted.findIdx? (fun o => decide (i.is_in o)) = some k))) := by
  intro inners
  induction inners with
  | nil =>
    intro gs k
    simp only [List.foldl_nil, List.filter_nil, List.append_nil]
    cases gs[k]? <;> rfl
  | cons inner rest ih =>
    intro gs k
    rw [List.foldl_cons]
    cases hf : sorted.findIdx? (fun o => decide (inner.is_in o)) with
    | none =>
      dsimp only
      rw [ih gs k]
      rw [show List.filter
          (fun i => decide (sorted.findIdx? (fun o => decide (i.is_in o)) = some k))
          (inner :: rest) =
        List.filter
          (fun i => decide (sorted.findIdx? (fun o => decide (i.is_in o)) = some k))
          rest from by simp [List.filter_cons, hf]]
    | some k0 =>
      dsimp only
      rw [ih (attach_at gs k0 inner) k]
      by_cases hkk : k = k0
      · subst hkk
        rw [show List.filter
            (fun i => decide (sorted.findIdx? (fun o => decide (i.is_in o)) = some k))
            (inner :: rest) =
          inner :: List.filter
            (fun i => decide (sorted.findIdx? (fun o => decide (i.is_in o)) = some k))
            rest from by simp [List.filter_cons, hf]]
        unfold attach_at
        by_cases hlt : k < gs.length
        · rw [List.getElem?_set_eq_of_lt _ hlt, List.getElem?_eq_getElem hlt,
            List.getD_eq_getElem?_getD, List.getElem?_eq_getElem hlt]
          simp
        · rw [List.set_eq_of_length_le (Nat.le_of_not_lt hlt)]
          rw [List.getElem?_eq_none (Nat.le_of_not_lt hlt)]
          rfl
      · have hne : k0 ≠ k := fun h => hkk h.symm
        rw [show List.filter
            (fun i => decide (sorted.findIdx? (fun o => decide (i.is_in o)) = some k))
            (inner :: rest) =
          List.filter
            (fun i => decide (sorted.findIdx? (fun o => decide (i.is_in o)) = some k))
            rest from by simp [List.filter_cons, hf, hne]]
        unfold attach_at
        rw [List.getElem?_set_ne (fun h => hkk h.symm)]

/-- C7: when classification yields more than one outer ring, the outer
rings are sorted by polygon area ascending and each inner ring is
attached to the first outer ring in that order that geometrically
contains it (inner rings contained in none are attached nowhere); when
classification yields exactly one outer ring, every inner ring is
attached to it with no containment test. -/
theorem c7_nesting_assignment :
    ∀ (outers inners : List ProtoRing),
      (outers.length = 1 → assign_inner_rings outers inners = [(outers.headI, inners)]) ∧
      (outers.length ≠ 1 →
        (List.Sorted areaLe (sort_outer_rings outers) ∧
         (sort_outer_rings outers).Perm outers) ∧
        ∀ k : Nat,
          (assign_inner_rings outers inners)[k]? =
            ((sort_outer_rings outers)[k]?).map
              (fun o => (o, inners.filter
                (fun i => (sort_outer_rings outers).findIdx?
                  (fun o2 => decide (i.is_in o2)) = some k)))) := by
  intro outers inners
  refine ⟨fun h => by simp [assign_inner_rings, h], fun h => ⟨⟨?_, ?_⟩, fun k => ?_⟩⟩
  · exact List.sorted_insertionSort areaLe outers
  · exact List.perm_insertionSort areaLe outers
  · unfold assign_inner_rings
    rw [if_neg h]
    rw [assign_fold (sort_outer_rings outers) inners
      ((sort_outer_rings outers).map (fun o => (o, ([] : List ProtoRing)))) k]
    rw [List.getElem?_map]
    cases (sort_outer_rings outers)[k]? <;> rfl

theorem c7_nesting_assignment_witness :
    assign_inner_rings (classify_rings holeSegs holeRings).1
        (classify_rings holeSegs holeRings).2 =
      [((classify_rings holeSegs holeRings).1.headI,
        (classify_rings holeSegs holeRings).2)] :=
  (c7_nesting_assignment (classify_rings holeSegs holeRings).1
    (classify_rings holeSegs holeRings).2).1 (by decide)

theorem foldl_append_tags (ways : List Way) :
    ∀ init : List Tag,
      ways.foldl (fun acc w => acc ++ w.tags) init = init ++ (ways.map Way.tags).flatten := by
  induction ways with
  | nil => intro init; simp
  | cons w tl ih => intro init; simp [ih]

theorem tag_count_le_one_of_nodup (l : List Tag) (h : l.Nodup) (t : Tag) :
    l.count t ≤ 1 := by
  induction l with
  | nil => simp
  | cons a tl ih =>
    rw [List.count_cons]
    have h2 := ih h.of_cons
    by_cases he : t = a
    · subst he
      have hz : tl.count t = 0 := by
        rw [List.count_eq_zero]
        exact (List.nodup_cons.mp h).1
      simp [hz]
    · simp [he, Ne.symm he, h2]

theorem count_flatten_le (t : Tag) :
    ∀ ways : List Way, (∀ w ∈ ways, w.tags.Nodup) →
      ((ways.map Way.tags).flatten).count t ≤ ways.length := by
  intro ways
  induction ways with
  | nil => intro _; simp
  | cons w tl ih =>
    intro h
    rw [List.map_cons, List.flatten_cons, List.count_append]
    have h1 : w.tags.count t ≤ 1 :=
      tag_count_le_one_of_nodup w.tags (h w (by simp)) t
    have h2 := ih (fun x hx => h x (by simp [hx]))
    simp only [List.length_cons]
    omega

theorem count_flatten_eq_iff (t : Tag) :
    ∀ ways : List Way, ways ≠ [] → (∀ w ∈ ways, w.tags.Nodup) →
      (((ways.map Way.tags).flatten).count t = ways.length ↔ ∀ w ∈ ways, t ∈ w.tags) := by
  intro ways
  induction ways with
  | nil => intro h; exact absurd rfl h
  | cons w tl ih =>
    intro _ hnd
    rw [List.map_cons, List.flatten_cons, List.count_append]
    have hw1 : w.tags.count t ≤ 1 :=
      tag_count_le_one_of_nodup w.tags (hnd w (by simp)) t
    have hwmem : 0 < w.tags.count t ↔ t ∈ w.tags := List.count_pos_iff
    cases tl with
    | nil =>
      simp only [List.map_nil, List.flatten_nil, List.count_nil, List.length_cons,
        List.length_nil, List.mem_singleton]
      constructor
      · intro h x hx
        subst hx
        exact hwmem.mp (by omega)
      · intro h
        have := hwmem.mpr (h w rfl)
        omega
    | cons w2 tl2 =>
      have ih2 := ih (by simp) (fun x hx => hnd x (by simp [hx]))
      have hle := count_flatten_le t (w2 :: tl2) (fun x hx => hnd x (by simp [hx]))
      simp only [List.length_cons] at *
      constructor
      · intro h x hx
        have hsplit : w.tags.count t = 1 ∧
            ((w2 :: tl2).map Way.tags).flatten.count t = tl2.length + 1 := by omega
        rcases List.mem_cons.mp hx with hx1 | hx2
        · subst hx1; exact hwmem.mp (by omega)
        · exact (ih2.mp hsplit.2) x hx2
      · intro h
        have h1 : 0 < w.tags.count t := hwmem.mpr (h w (by simp))
        have h2 : ((w2 :: tl2).map Way.tags).flatten.count t = tl2.length + 1 :=
          ih2.mpr (fun x hx => h x (by simp [hx]))
        omega

theorem add_common_tags_spec (ways : List Way) (hne : ways ≠ [])
    (hnd : ∀ w ∈ ways, w.tags.Nodup) :
    (∀ t : Tag, t ∈ add_common_tags ways ↔ ∀ w ∈ ways, t ∈ w.tags) ∧
    (add_common_tags ways).Nodup := by
  have hpairs : ways.foldl (fun acc w => acc ++ w.tags) [] = (ways.map Way.tags).flatten := by
    rw [foldl_append_tags ways []]; rfl
  unfold add_common_tags
  rw [hpairs]
  constructor
  · intro t
    rw [List.mem_filter]
    constructor
    · rintro ⟨_, hcnt⟩
      have hcnt2 : ((ways.map Way.tags).flatten).count t = ways.length :=
        of_decide_eq_true hcnt
      exact (count_flatten_eq_iff t ways hne hnd).mp hcnt2
    · intro hall
      have hcnt : ((ways.map Way.tags).flatten).count t = ways.length :=
        (count_flatten_eq_iff t ways hne hnd).mpr hall
      refine ⟨?_, by simp [hcnt]⟩
      have hmem : t ∈ (ways.map Way.tags).flatten := by
        obtain ⟨w0, hw0⟩ := List.exists_mem_of_ne_nil ways hne
        exact List.mem_flatten.mpr ⟨w0.tags, List.mem_map_of_mem Way.tags hw0, hall w0 hw0⟩
      exact (List.perm_insertionSort tagLe _).mem_iff.mpr (List.mem_dedup.mpr hmem)
  · exact List.Nodup.filter _
      ((List.perm_insertionSort tagLe _).nodup_iff.mpr (List.nodup_dedup _))

theorem add_tags_rel_relation_branch (rel : Relation) (outers : List ProtoRing)
    (h : filter_tags ignore_keys rel.tags ≠ []) :
    add_tags_to_area_relation rel outers = rel.tags.filter (fun t => t.1 != "type") := by
  unfold add_tags_to_area_relation
  rw [if_pos (List.length_pos.mpr h)]

theorem add_tags_rel_single_way_branch (rel : Relation) (outers : List ProtoRing)
    (h : filter_tags ignore_keys rel.tags = []) (w : Way)
    (hw : get_ways_of_outers outers = [w]) :
    add_tags_to_area_relation rel outers = w.tags := by
  unfold add_tags_to_area_relation
  rw [if_neg (by simp [h]), hw]
  rfl

theorem add_tags_rel_common_branch (rel : Relation) (outers : List ProtoRing)
    (h : filter_tags ignore_keys rel.tags = [])
    (hlen : (get_ways_of_outers outers).length ≠ 1) :
    add_tags_to_area_relation rel outers = add_common_tags (get_ways_of_outers outers) := by
  unfold add_tags_to_area_relation
  rw [if_neg (by simp [h]), if_neg hlen]

/-- C2: for a successful relation-sourced assembly, if the relation's
tags minus {type, created_by, source, note, test:id, test:section} are
non-empty the area's tags are exactly the relation's tags minus the
key type; otherwise, with exactly one deduplicated outer origin way
the area's tags are exactly that way's tags, and with more than one
the area's tags are exactly the (key, value) pairs present in every
outer origin way (each way's tag list assumed duplicate-free). -/
theorem c2_tag_policy (rel : Relation)
    (hok : (stage2_of_relation rel).ok = true)
    (hnd : ∀ w ∈ relation_outer_ways rel, w.tags.Nodup) :
    (filter_tags ignore_keys rel.tags ≠ [] →
      (assemble_relation rel).1.tags = rel.tags.filter (fun t => t.1 != "type")) ∧
    (filter_tags ignore_keys rel.tags = [] →
      (∀ w : Way, relation_outer_ways rel = [w] → (assemble_relation rel).1.tags = w.tags) ∧
      (1 < (relation_outer_ways rel).length →
        (∀ t : Tag, t ∈ (assemble_relation rel).1.tags ↔
          ∀ w ∈ relation_outer_ways rel, t ∈ w.tags) ∧
        ((assemble_relation rel).1.tags).Nodup)) := by
  have htags := assemble_relation_ok_tags rel hok
  refine ⟨fun hne => ?_, fun hemp => ⟨fun w hw => ?_, fun hlen => ?_⟩⟩
  · rw [htags]
    exact add_tags_rel_relation_branch rel _ hne
  · rw [htags]
    exact add_tags_rel_single_way_branch rel _ hemp w hw
  · have hne2 : relation_outer_ways rel ≠ [] := by
      intro hc
      rw [hc] at hlen
      simp at hlen
    have hlen2 : (relation_outer_ways rel).length ≠ 1 := by omega
    have hcommon := add_tags_rel_common_branch rel
      ((stage2_of_relation rel).groups.map Prod.fst) hemp hlen2
    have hspec := add_common_tags_spec (relation_outer_ways rel) hne2 hnd
    rw [htags, hcommon]
    exact hspec

theorem c2_tag_policy_witness :
    ("landuse", "forest") ∈ (assemble_relation twoSquaresRel).1.tags ∧
    (assemble_relation twoSquaresRel).1.tags.Nodup := by
  have h := (c2_tag_policy twoSquaresRel (by decide) (by decide)).2 (by decide)
  have h2 := h.2 (by decide)
  exact ⟨(h2.1 ("landuse", "forest")).mpr (by decide), h2.2⟩

theorem head?_dropWhile_false {α} (p : α → Bool) :
    ∀ (l : List α) (a : α), (l.dropWhile p).head? = some a → p a = false := by
  intro l
  induction l with
  | nil => intro a h; simp [List.dropWhile] at h
  | cons x t ih =>
    intro a h
    rw [List.dropWhile_cons] at h
    by_cases hp : p x = true
    · rw [if_pos hp] at h; exact ih a h
    · rw [if_neg hp] at h
      simp only [List.head?_cons, Option.some.injEq] at h
      subst h
      exact Bool.not_eq_true _ ▸ (by simpa using hp)

theorem getLastI_mem {α} [Inhabited α] (l : List α) (h : l ≠ []) : l.getLastI ∈ l := by
  rw [List.getLastI_eq_getLast?]
  cases hl : l.getLast? with
  | none => exact absurd (List.getLast?_eq_none_iff.mp hl) h
  | some a => exact List.mem_of_mem_getLast? hl

theorem getLastI_cons_cons {α} [Inhabited α] (a b : α) (l : List α) :
    (a :: b :: l).getLastI = (b :: l).getLastI := by
  rw [List.getLastI_eq_getLast?, List.getLastI_eq_getLast?, List.getLast?_cons_cons]

theorem tr_cons (z : Item) (t : List Item) :
    type_runs (z :: t) =
      (z :: t.takeWhile (fun y => y.type == z.type)) ::
        type_runs (t.dropWhile (fun y => y.type == z.type)) := by
  rw [type_runs]

theorem diff_window_prev_replace (prev cur next : Item) (h : prev.type ≠ cur.type) :
    diff_window prev cur next = diff_window cur cur next := by
  simp only [diff_window]
  rw [if_pos (Or.inl h), if_neg (show ¬(cur.type ≠ cur.type ∨ cur.id ≠ cur.id) from by simp)]

theorem diff_window_next_replace (prev cur next : Item) (h : next.type ≠ cur.type) :
    diff_window prev cur next = diff_window prev cur cur := by
  simp only [diff_window]
  rw [if_pos (show next.type ≠ cur.type ∨ next.id ≠ cur.id from Or.inl h),
    if_neg (show ¬(cur.type ≠ cur.type ∨ cur.id ≠ cur.id) from by simp)]

theorem run_windows_go_prev (prev x : Item) (l : List Item) (h : prev.type ≠ x.type) :
    run_windows_go prev (x :: l) = run_windows_go x (x :: l) := by
  cases l with
  | nil => simp only [run_windows_go]; rw [diff_window_prev_replace prev x x h]
  | cons y tl =>
    simp only [run_windows_go]
    rw [diff_window_prev_replace prev x y h]

theorem diff_go_step (last : Option ItemType) (prev it nxt : Item) (tl : List Item) :
    diff_apply_go last prev (it :: nxt :: tl) =
      (if last ≠ some it.type then before_and_after last (some it.type) else []) ++
        diff_window prev it nxt :: diff_apply_go (some it.type) it (nxt :: tl) := by
  simp only [diff_apply_go]
  rw [List.append_assoc, List.singleton_append]

theorem diff_go_single (last : Option ItemType) (prev it : Item) :
    diff_apply_go last prev [it] =
      (if last ≠ some it.type then before_and_after last (some it.type) else []) ++
        diff_window prev it it :: before_and_after (some it.type) none := by
  simp only [diff_apply_go]
  rw [List.append_assoc, List.singleton_append]

theorem diff_go_boundary (last : Option ItemType) (prev it : Item) (rest : List Item)
    (h : last ≠ some it.type) :
    diff_apply_go last prev (it :: rest) =
      before_and_after last (some it.type) ++ diff_apply_go (some it.type) prev (it :: rest) := by
  cases rest with
  | nil =>
    rw [diff_go_single, diff_go_single, if_pos h,
      if_neg (show ¬ (some it.type ≠ some it.type) from by simp)]
    simp
  | cons nxt tl =>
    rw [diff_go_step, diff_go_step, if_pos h,
      if_neg (show ¬ (some it.type ≠ some it.type) from by simp)]
    simp

theorem diff_go_run (ty : ItemType) :
    ∀ (run rest : List Item) (prev : Item),
      run ≠ [] → (∀ y ∈ run, y.type = ty) →
      (∀ z, rest.head? = some z → z.type ≠ ty) →
      diff_apply_go (some ty) prev (run ++ rest) =
        run_windows_go prev run ++
          (match rest with
           | [] => [DiffEvent.after ty, DiffEvent.done]
           | _ :: _ => diff_apply_go (some ty) run.getLastI rest) := by
  intro run
  induction run with
  | nil => intro rest prev hne _ _; exact absurd rfl hne
  | cons x rtl ih =>
    intro rest prev _ hty hrest
    have hx : x.type = ty := hty x (by simp)
    cases rtl with
    | nil =>
      cases rest with
      | nil =>
        rw [show ([x] ++ [] : List Item) = [x] from by simp]
        rw [diff_go_single, if_neg (show ¬ (some ty ≠ some x.type) from by simp [hx])]
        simp [before_and_after, hx, run_windows_go]
      | cons z rt2 =>
        have hz : z.type ≠ ty := hrest z rfl
        rw [show ([x] ++ z :: rt2 : List Item) = x :: z :: rt2 from by simp]
        rw [diff_go_step, if_neg (show ¬ (some ty ≠ some x.type) from by simp [hx])]
        rw [diff_window_next_replace prev x z (by rw [hx]; exact hz)]
        rw [hx]
        rfl
    | cons y rt2 =>
      have hl : ((x :: y :: rt2) ++ rest : List Item) = x :: y :: (rt2 ++ rest) := by simp
      rw [hl, diff_go_step, if_neg (show ¬ (some ty ≠ some x.type) from by simp [hx])]
      have ihr := ih rest x (by simp) (fun a ha => hty a (by simp [ha])) hrest
      rw [show ((y :: rt2) ++ rest : List Item) = y :: (rt2 ++ rest) from by simp] at ihr
      rw [hx, ihr]
      rw [show run_windows_go prev (x :: y :: rt2) =
        diff_window prev x y :: run_windows_go x (y :: rt2) from rfl]
      rw [getLastI_cons_cons x y rt2]
      simp

theorem diff_spec_tail_cons (z : Item) (t : List Item) :
    diff_spec_tail (z :: t) =
      DiffEvent.before z.type ::
        run_windows (z :: t.takeWhile (fun y => y.type == z.type)) ++
        DiffEvent.after z.type ::
        diff_spec_tail (t.dropWhile (fun y => y.type == z.type)) := by
  unfold diff_spec_tail
  rw [tr_cons z t]
  simp [List.headI]

theorem diff_go_spec :
    ∀ (n : Nat) (l : List Item) (prev : Item) (ty : ItemType),
      l.length ≤ n → l ≠ [] → l.headI.type ≠ ty → prev.type = ty →
      diff_apply_go (some ty) prev l = DiffEvent.after ty :: diff_spec_tail l := by
  intro n
  induction n with
  | zero =>
    intro l prev ty hlen hne _ _
    cases l with
    | nil => exact absurd rfl hne
    | cons z t => simp at hlen
  | succ n ihn =>
    intro l prev ty hlen hne hhead hprev
    cases l with
    | nil => exact absurd rfl hne
    | cons z t =>
      have hz : z.type ≠ ty := hhead
      have hbnd : (some ty : Option ItemType) ≠ some z.type := by
        intro hc
        exact hz (Option.some.inj hc).symm
      rw [diff_go_boundary (some ty) prev z t hbnd]
      have hrw : z :: t = (z :: t.takeWhile (fun y => y.type == z.type)) ++
          t.dropWhile (fun y => y.type == z.type) := by
        simp [List.takeWhile_append_dropWhile]
      have hall : ∀ y ∈ z :: t.takeWhile (fun y => y.type == z.type), y.type = z.type := by
        intro y hy
        rcases List.mem_cons.mp hy with h | h
        · rw [h]
        · simpa using List.mem_takeWhile_imp h
      have hresthead : ∀ w, (t.dropWhile (fun y => y.type == z.type)).head? = some w →
          w.type ≠ z.type := by
        intro w hw
        simpa using head?_dropWhile_false (fun y => y.type == z.type) t w hw
      rw [show diff_apply_go (some z.type) prev (z :: t) =
          diff_apply_go (some z.type) prev ((z :: t.takeWhile (fun y => y.type == z.type)) ++
            t.dropWhile (fun y => y.type == z.type)) from by rw [← hrw]]
      rw [diff_go_run z.type (z :: t.takeWhile (fun y => y.type == z.type))
        (t.dropWhile (fun y => y.type == z.type)) prev (by simp) hall hresthead]
      rw [run_windows_go_prev prev z (t.takeWhile (fun y => y.type == z.type))
        (by rw [hprev]; exact Ne.symm hz)]
      rw [diff_spec_tail_cons z t]
      cases hrest : t.dropWhile (fun y => y.type == z.type) with
      | nil =>
        simp [before_and_after, run_windows, diff_spec_tail, type_runs]
      | cons w rw2 =>
        have hlast_type : ((z :: t.takeWhile (fun y => y.type == z.type)).getLastI).type
            = z.type :=
          hall _ (getLastI_mem _ (by simp))
        have hlen2 : (w :: rw2).length ≤ n := by
          have h1 : (t.dropWhile (fun y => y.type == z.type)).length ≤ t.length :=
            (List.dropWhile_sublist _).length_le
          rw [hrest] at h1
          simp only [List.length_cons] at hlen h1 ⊢
          omega
        have hheadw : (w :: rw2).headI.type ≠ z.type := by
          have := head?_dropWhile_false (fun y => y.type == z.type) t w (by rw [hrest]; rfl)
          simpa using this
        rw [ihn (w :: rw2) _ z.type hlen2 (by simp) hheadw hlast_type]
        simp [before_and_after, run_windows]

/-- C9: applying the diff handler to a non-empty sorted item stream
fires, in order, init, then for each maximal same-type run before_T,
the item callbacks, and after_T, and finally done; each item callback
receives a (previous, current, next) window in which previous is
replaced by the current item when the preceding item differs in type
or id (so the first item of a run uses itself), and next is replaced
by the current item when the following item differs in type or id or
the current item is last. -/
theorem c9_diff_handler_windows :
    ∀ items : List Item, items ≠ [] → diff_apply items = diff_spec_trace items := by
  intro items hne
  cases items with
  | nil => exact absurd rfl hne
  | cons z t =>
    show diff_apply_go none z (z :: t) = DiffEvent.init :: diff_spec_tail (z :: t)
    rw [diff_go_boundary none z z t (by simp)]
    have hall : ∀ y ∈ z :: t.takeWhile (fun y => y.type == z.type), y.type = z.type := by
      intro y hy
      rcases List.mem_cons.mp hy with h | h
      · rw [h]
      · simpa using List.mem_takeWhile_imp h
    have hresthead : ∀ w, (t.dropWhile (fun y => y.type == z.type)).head? = some w →
        w.type ≠ z.type := by
      intro w hw
      simpa using head?_dropWhile_false (fun y => y.type == z.type) t w hw
    have hrw : z :: t = (z :: t.takeWhile (fun y => y.type == z.type)) ++
        t.dropWhile (fun y => y.type == z.type) := by
      simp [List.takeWhile_append_dropWhile]
    rw [show diff_apply_go (some z.type) z (z :: t) =
        diff_apply_go (some z.type) z ((z :: t.takeWhile (fun y => y.type == z.type)) ++
          t.dropWhile (fun y => y.type == z.type)) from by rw [← hrw]]
    rw [diff_go_run z.type (z :: t.takeWhile (fun y => y.type == z.type))
      (t.dropWhile (fun y => y.type == z.type)) z (by simp) hall hresthead]
    rw [diff_spec_tail_cons z t]
    cases hrest : t.dropWhile (fun y => y.type == z.type) with
    | nil =>
      simp [before_and_after, run_windows, diff_spec_tail, type_runs]
    | cons w rw2 =>
      have hlast_type : ((z :: t.takeWhile (fun y => y.type == z.type)).getLastI).type
          = z.type :=
        hall _ (getLastI_mem _ (by simp))
      have hheadw : (w :: rw2).headI.type ≠ z.type := by
        have := head?_dropWhile_false (fun y => y.type == z.type) t w (by rw [hrest]; rfl)
        simpa using this
      rw [diff_go_spec (w :: rw2).length (w :: rw2) _ z.type le_rfl (by simp)
        hheadw hlast_type]
      simp [before_and_after, run_windows]

theorem c9_diff_handler_windows_witness :
    diff_apply diffItemsEx = diff_spec_trace diffItemsEx ∧
    diff_apply diffItemsEx =
      [DiffEvent.init, DiffEvent.before ItemType.node,
       DiffEvent.item ⟨ItemType.node, 1, 1⟩ ⟨ItemType.node, 1, 1⟩ ⟨ItemType.node, 1, 2⟩,
       DiffEvent.item ⟨ItemType.node, 1, 1⟩ ⟨ItemType.node, 1, 2⟩ ⟨ItemType.node, 1, 2⟩,
       DiffEvent.item ⟨ItemType.node, 2, 1⟩ ⟨ItemType.node, 2, 1⟩ ⟨ItemType.node, 2, 1⟩,
       DiffEvent.after ItemType.node, DiffEvent.before ItemType.way,
       DiffEvent.item ⟨ItemType.way, 1, 1⟩ ⟨ItemType.way, 1, 1⟩ ⟨ItemType.way, 1, 1⟩,
       DiffEvent.after ItemType.way, DiffEvent.done] :=
  ⟨c9_diff_handler_windows diffItemsEx (by decide), by decide⟩

end Osmium
